import Mathlib

/-!
# Verification of the bookmark-manager-api core services

A shallow embedding of the Bookmark/Category/Tag service layer of the
`bookmark-manager-api` repository (`src/services/bookmark.service.ts`,
`src/services/category.service.ts`, `src/services/tag.service.ts`) over an
explicit relational-store state, together with proofs settling the frozen
claims about that code.

Modelling conventions:
* Row identifiers (`cuid()` strings in the source) are modelled as `Nat`,
  generated freshly from a `nextId` counter carried by the store.
* Timestamps (`DateTime`) are modelled as `Nat`; `db.now` is the value
  `new Date()` produces during the current request.  Timestamp columns that
  no claim touches (`createdAt`/`updatedAt` on tags, categories, metadata
  and junction rows) are omitted from the row types.
* Each Prisma statement is a function on the store.  Statements that can hit
  a database constraint (`@@unique`, composite primary key, foreign key)
  return `Except`, mirroring the Prisma errors P2002/P2003/P2025; on error
  the single statement leaves the store unchanged.
* The services run each statement independently — exactly as the source
  does, which uses no `$transaction` in the bookmark service — so a service
  function returns `(Except ServiceError α) × DB`: the final store is
  returned even when the call fails, reflecting that earlier statements of
  the same call have already committed.
* `zod`-validated request payloads are structures whose optional fields are
  `Option`s (`none` = the field was absent from the request; `zod`'s
  `.optional()` admits `undefined` but not `null`).
-/

set_option linter.unusedVariables false

namespace BookmarkApi

/-- Row of the `website_metadata` table (`model WebsiteMetadata`). -/
structure WebsiteMetadata where
  id : Nat
  url : String
  title : Option String
  description : Option String
  favicon : Option String
  image : Option String
deriving Repr, DecidableEq

/-- Row of the `categories` table (`model Category`). -/
structure Category where
  id : Nat
  name : String
  description : Option String
  color : Option String
  userId : Nat
deriving Repr, DecidableEq

/-- Row of the `tags` table (`model Tag`). -/
structure Tag where
  id : Nat
  name : String
  userId : Nat
deriving Repr, DecidableEq

/-- Row of the `bookmarks` table (`model Bookmark`). -/
structure Bookmark where
  id : Nat
  personalTitle : Option String
  personalNote : Option String
  isPublic : Bool
  userId : Nat
  websiteMetadataId : Nat
  categoryId : Option Nat
  createdAt : Nat
  deletedAt : Option Nat
deriving Repr, DecidableEq

/-- Row of the `bookmark_tags` junction table (`model BookmarkTag`,
composite primary key `(bookmarkId, tagId)`). -/
structure BookmarkTag where
  bookmarkId : Nat
  tagId : Nat
deriving Repr, DecidableEq

/-- The relational store: the six tables the services touch (the `users`
table is never read or written by the service layer beyond carrying the
already-authenticated requester id, so it is not modelled), plus the fresh
id counter and the request-time clock. -/
structure DB where
  metadatas : List WebsiteMetadata := []
  bookmarks : List Bookmark := []
  categories : List Category := []
  tags : List Tag := []
  bookmarkTags : List BookmarkTag := []
  nextId : Nat := 0
  now : Nat := 0
deriving Repr, DecidableEq

/-- The errors observable at the service boundary: the typed service errors
(`BookmarkError`, `CategoryError`, `AppError` classes in the source) and the
raw Prisma constraint errors that escape the services unhandled
(P2002 unique violation, P2003 foreign-key violation, P2025 record not
found). -/
inductive ServiceError where
  | bookmarkError (message code : String) (statusCode : Nat)
  | categoryError (message code : String) (statusCode : Nat)
  | appError (message : String) (statusCode : Nat)
  | uniqueViolation (table : String)
  | fkViolation (table : String)
  | recordNotFound (table : String)
deriving Repr, DecidableEq

/-- `new BookmarkError('북마크를 찾을 수 없습니다.', 'BOOKMARK_NOT_FOUND', 404)` —
the one error every ownership-guarded bookmark lookup raises. -/
def bookmarkNotFoundError : ServiceError :=
  .bookmarkError "북마크를 찾을 수 없습니다." "BOOKMARK_NOT_FOUND" 404

/-- `new BookmarkError('유효하지 않은 태그가 포함되어 있습니다.', 'INVALID_TAGS', 400)`. -/
def invalidTagsError : ServiceError :=
  .bookmarkError "유효하지 않은 태그가 포함되어 있습니다." "INVALID_TAGS" 400

/-- `new BookmarkError('유효하지 않은 카테고리입니다.', 'INVALID_CATEGORY', 400)`. -/
def invalidCategoryError : ServiceError :=
  .bookmarkError "유효하지 않은 카테고리입니다." "INVALID_CATEGORY" 400

/-- `new CategoryError('카테고리를 찾을 수 없습니다', 'CATEGORY_NOT_FOUND', 404)`. -/
def categoryNotFoundError : ServiceError :=
  .categoryError "카테고리를 찾을 수 없습니다" "CATEGORY_NOT_FOUND" 404

/-- `new CategoryError('이미 존재하는 카테고리명입니다', 'CATEGORY_ALREADY_EXISTS', 400)` —
the category duplicate-name error (raised only by `createCategory`). -/
def categoryDuplicateError : ServiceError :=
  .categoryError "이미 존재하는 카테고리명입니다" "CATEGORY_ALREADY_EXISTS" 400

/-- `new AppError('태그를 찾을 수 없습니다', 404)`. -/
def tagNotFoundError : ServiceError := .appError "태그를 찾을 수 없습니다" 404

/-- `new AppError('이미 존재하는 태그입니다', 400)` — the tag duplicate-name
error. -/
def tagDuplicateError : ServiceError := .appError "이미 존재하는 태그입니다" 400

/-! ## Request payloads (`src/schemas/bookmark.schema.ts`, category/tag schemas) -/

/-- `CreateBookmarkRequest` (`createBookmarkSchema`). -/
structure CreateBookmarkRequest where
  url : String
  personalTitle : Option String := none
  personalNote : Option String := none
  categoryId : Option Nat := none
  isPublic : Bool := false
  tags : Option (List String) := none
deriving Repr, DecidableEq

/-- `UpdateBookmarkRequest` (`updateBookmarkSchema`). -/
structure UpdateBookmarkRequest where
  personalTitle : Option String := none
  personalNote : Option String := none
  categoryId : Option Nat := none
  isPublic : Option Bool := none
  tags : Option (List String) := none
deriving Repr, DecidableEq

/-- `GetBookmarksQuery` (`getBookmarksSchema`; `page`/`limit` have the
defaults 1/20 and the schema bounds `page ≥ 1`, `1 ≤ limit ≤ 100`). -/
structure GetBookmarksQuery where
  page : Nat := 1
  limit : Nat := 20
  categoryId : Option Nat := none
  search : Option String := none
  isPublic : Option Bool := none
deriving Repr, DecidableEq

/-- `CreateCategoryRequest`. -/
structure CreateCategoryRequest where
  name : String
  description : Option String := none
  color : Option String := none
deriving Repr, DecidableEq

/-- `UpdateCategoryRequest` (all fields optional). -/
structure UpdateCategoryRequest where
  name : Option String := none
  description : Option String := none
  color : Option String := none
deriving Repr, DecidableEq

/-- `UpdateTagRequest` (`UpdateTagSchema = CreateTagSchema.partial()`). -/
structure UpdateTagRequest where
  name : Option String := none
deriving Repr, DecidableEq

/-! ## Prisma statements

Each definition embeds one Prisma call shape used by the services.  The
constraint checks mirror the unique indexes and foreign keys of
`prisma/schema.prisma`. -/

/-- `prisma.websiteMetadata.findUnique({ where: { url } })`. -/
def websiteMetadataFindUnique (url : String) (db : DB) : Option WebsiteMetadata :=
  db.metadatas.find? (fun m => decide (m.url = url))

/-- Number of metadata rows holding exactly this URL (the unique index on
`url` keeps it at most 1). -/
def urlCount (url : String) (db : DB) : Nat :=
  (db.metadatas.filter (fun m => decide (m.url = url))).length

/-- `prisma.websiteMetadata.create` with all descriptive fields `null`;
subject to the unique index on `url`. -/
def websiteMetadataCreate (url : String) (db : DB) :
    Except ServiceError (WebsiteMetadata × DB) :=
  if db.metadatas.any (fun m => decide (m.url = url)) then
    .error (.uniqueViolation "website_metadata")
  else
    let m : WebsiteMetadata :=
      { id := db.nextId, url := url, title := none, description := none,
        favicon := none, image := none }
    .ok (m, { db with metadatas := db.metadatas ++ [m], nextId := db.nextId + 1 })

/-- `prisma.tag.findUnique({ where: { userId_name: { userId, name } } })`. -/
def tagFindUnique (userId : Nat) (name : String) (db : DB) : Option Tag :=
  db.tags.find? (fun t => decide (t.userId = userId ∧ t.name = name))

/-- `prisma.tag.create({ data: { userId, name } })`; subject to the unique
index on `(userId, name)`. -/
def tagCreate (userId : Nat) (name : String) (db : DB) :
    Except ServiceError (Tag × DB) :=
  if db.tags.any (fun t => decide (t.userId = userId ∧ t.name = name)) then
    .error (.uniqueViolation "tags")
  else
    let t : Tag := { id := db.nextId, name := name, userId := userId }
    .ok (t, { db with tags := db.tags ++ [t], nextId := db.nextId + 1 })

/-- `prisma.bookmarkTag.create({ data: { bookmarkId, tagId } })`; subject to
the composite primary key `(bookmarkId, tagId)`. -/
def bookmarkTagCreate (bookmarkId tagId : Nat) (db : DB) : Except ServiceError DB :=
  if db.bookmarkTags.any (fun bt => decide (bt.bookmarkId = bookmarkId ∧ bt.tagId = tagId)) then
    .error (.uniqueViolation "bookmark_tags")
  else
    .ok { db with bookmarkTags := db.bookmarkTags ++ [⟨bookmarkId, tagId⟩] }

/-- `prisma.bookmarkTag.deleteMany({ where: { bookmarkId } })`. -/
def bookmarkTagDeleteMany (bookmarkId : Nat) (db : DB) : DB :=
  { db with bookmarkTags := db.bookmarkTags.filter (fun bt => decide (bt.bookmarkId ≠ bookmarkId)) }

/-- `prisma.bookmarkTag.upsert({ where: { bookmarkId_tagId }, update: {}, create: … })` —
inserts the junction row unless it already exists. -/
def bookmarkTagUpsert (bookmarkId tagId : Nat) (db : DB) : DB :=
  if db.bookmarkTags.any (fun bt => decide (bt.bookmarkId = bookmarkId ∧ bt.tagId = tagId)) then
    db
  else
    { db with bookmarkTags := db.bookmarkTags ++ [⟨bookmarkId, tagId⟩] }

/-- The ownership-guarded fetch every bookmark operation starts with:
`prisma.bookmark.findFirst({ where: { id: bookmarkId, userId, deletedAt: null } })`. -/
def bookmarkFindFirst (userId bookmarkId : Nat) (db : DB) : Option Bookmark :=
  db.bookmarks.find? (fun b =>
    decide (b.id = bookmarkId ∧ b.userId = userId ∧ b.deletedAt = none))

/-- `prisma.bookmark.create` as called by `createBookmark`; subject to the
foreign key on `categoryId` (existence of the referenced category row —
SQLite checks existence only, not ownership).  The `websiteMetadataId`
foreign key is satisfied by construction at the only call site, which passes
the id of the metadata row just fetched or created. -/
def bookmarkCreate (userId websiteMetadataId : Nat) (data : CreateBookmarkRequest)
    (db : DB) : Except ServiceError (Bookmark × DB) :=
  let fkOk : Bool :=
    match data.categoryId with
    | some c => db.categories.any (fun cat => decide (cat.id = c))
    | none => true
  if fkOk then
    let b : Bookmark :=
      { id := db.nextId, personalTitle := data.personalTitle,
        personalNote := data.personalNote, isPublic := data.isPublic,
        userId := userId, websiteMetadataId := websiteMetadataId,
        categoryId := data.categoryId, createdAt := db.now, deletedAt := none }
    .ok (b, { db with bookmarks := db.bookmarks ++ [b], nextId := db.nextId + 1 })
  else
    .error (.fkViolation "bookmarks")

/-! ## BookmarkService (`src/services/bookmark.service.ts`) -/

/-- `BookmarkService.getOrCreateWebsiteMetadata` (lines 79–98): look the URL
up; if absent, create a placeholder row with all descriptive fields `null`. -/
def getOrCreateWebsiteMetadata (url : String) (db : DB) :
    Except ServiceError (WebsiteMetadata × DB) :=
  match websiteMetadataFindUnique url db with
  | some m => .ok (m, db)
  | none => websiteMetadataCreate url db

/-- The `for (const tagName of tags)` loop shared verbatim by
`createBookmark` (lines 131–160) and `updateBookmark` (lines 324–351):
find-or-create the tag for `(userId, tagName)`, then insert the junction
row.  Each statement commits on its own; on a constraint error the loop
stops and the store keeps every earlier write of the same call. -/
def attachTagsLoop (userId bookmarkId : Nat) :
    List String → DB → (Except ServiceError Unit) × DB
  | [], db => (.ok (), db)
  | tagName :: rest, db =>
    match tagFindUnique userId tagName db with
    | some t =>
      match bookmarkTagCreate bookmarkId t.id db with
      | .error e => (.error e, db)
      | .ok db2 => attachTagsLoop userId bookmarkId rest db2
    | none =>
      match tagCreate userId tagName db with
      | .error e => (.error e, db)
      | .ok (t, db1) =>
        match bookmarkTagCreate bookmarkId t.id db1 with
        | .error e => (.error e, db1)
        | .ok db2 => attachTagsLoop userId bookmarkId rest db2

/-- `BookmarkService.createBookmark` (lines 103–181): obtain metadata,
insert the bookmark row, attach tags, re-fetch the created aggregate.
No transaction wraps these statements in the source. -/
def createBookmark (userId : Nat) (data : CreateBookmarkRequest) (db : DB) :
    (Except ServiceError Bookmark) × DB :=
  match getOrCreateWebsiteMetadata data.url db with
  | .error e => (.error e, db)
  | .ok (websiteMetadata, db1) =>
    match bookmarkCreate userId websiteMetadata.id data db1 with
    | .error e => (.error e, db1)
    | .ok (bookmark, db2) =>
      let step : (Except ServiceError Unit) × DB :=
        match data.tags with
        | some tags =>
          if tags.length > 0 then attachTagsLoop userId bookmark.id tags db2
          else (.ok (), db2)
        | none => (.ok (), db2)
      match step with
      | (.error e, db3) => (.error e, db3)
      | (.ok _, db3) =>
        match db3.bookmarks.find? (fun b => decide (b.id = bookmark.id)) with
        | some createdBookmark => (.ok createdBookmark, db3)
        | none =>
          (.error (.bookmarkError "북마크 생성에 실패했습니다." "BOOKMARK_CREATION_FAILED" 500), db3)

/-- `Math.ceil(totalCount / limit)` over naturals: ceiling division. -/
def ceilDivNat (a b : Nat) : Nat := (a + b - 1) / b

/-- SQL `column LIKE '%search%'`: substring containment; a `NULL` column
never matches. -/
def strContains (s sub : String) : Bool := decide (sub.data <:+: s.data)

/-- `contains` applied to a nullable column. -/
def optContains (s : Option String) (sub : String) : Bool :=
  match s with
  | some v => strContains v sub
  | none => false

/-- The `whereCondition` built by `getBookmarks` (lines 190–213): always
`userId` and `deletedAt: null`; optional equality on `categoryId` and
`isPublic`; if `search` is present, an `OR` across personal title, personal
note, the joined metadata title and url, and attached tag names. -/
def bookmarkMatches (db : DB) (userId : Nat) (query : GetBookmarksQuery)
    (b : Bookmark) : Bool :=
  decide (b.userId = userId) && decide (b.deletedAt = none) &&
  (match query.categoryId with
   | some c => decide (b.categoryId = some c)
   | none => true) &&
  (match query.isPublic with
   | some p => decide (b.isPublic = p)
   | none => true) &&
  (match query.search with
   | some s =>
     optContains b.personalTitle s || optContains b.personalNote s ||
     (match db.metadatas.find? (fun m => decide (m.id = b.websiteMetadataId)) with
      | some m => optContains m.title s || strContains m.url s
      | none => false) ||
     db.bookmarkTags.any (fun bt =>
       decide (bt.bookmarkId = b.id) &&
       db.tags.any (fun t => decide (t.id = bt.tagId) && strContains t.name s))
   | none => true)

/-- Pagination metadata of `BookmarkListResponse`. -/
structure Pagination where
  currentPage : Nat
  totalPages : Nat
  totalCount : Nat
  limit : Nat
  hasNext : Bool
  hasPrev : Bool
deriving Repr, DecidableEq

/-- `BookmarkListResponse`. -/
structure BookmarkListResponse where
  bookmarks : List Bookmark
  pagination : Pagination
deriving Repr, DecidableEq

/-- `BookmarkService.getBookmarks` (lines 186–252): count and page the rows
matching `whereCondition`, ordered by `createdAt` descending, and compute
the pagination metadata.  A pure read: the store is unchanged and the
operation cannot fail. -/
def getBookmarks (userId : Nat) (query : GetBookmarksQuery) (db : DB) :
    BookmarkListResponse :=
  let skip := (query.page - 1) * query.limit
  let matching := db.bookmarks.filter (bookmarkMatches db userId query)
  let totalCount := matching.length
  let page :=
    ((matching.mergeSort (fun a b => decide (b.createdAt ≤ a.createdAt))).drop skip).take
      query.limit
  let totalPages := ceilDivNat totalCount query.limit
  { bookmarks := page,
    pagination :=
      { currentPage := query.page, totalPages := totalPages,
        totalCount := totalCount, limit := query.limit,
        hasNext := decide (query.page < totalPages),
        hasPrev := decide (query.page > 1) } }

/-- `BookmarkService.getBookmarkById` (lines 257–280): ownership-guarded
fetch; `BOOKMARK_NOT_FOUND` if the row is absent, foreign-owned or
soft-deleted.  A pure read. -/
def getBookmarkById (userId bookmarkId : Nat) (db : DB) :
    Except ServiceError Bookmark :=
  match bookmarkFindFirst userId bookmarkId db with
  | some b => .ok b
  | none => .error bookmarkNotFoundError

/-- Prisma update semantics for a nullable column: a request field that is
`undefined` (`none` here) leaves the column untouched; a provided value
overwrites it. -/
def updField {α : Type} (new old : Option α) : Option α :=
  match new with
  | some v => some v
  | none => old

/-- `prisma.bookmark.update` as called by `updateBookmark` (lines 306–314):
fields left `undefined` in the request are not touched; a provided
`categoryId` is only subject to the foreign-key existence check. -/
def bookmarkUpdateRow (bookmarkId : Nat) (data : UpdateBookmarkRequest)
    (db : DB) : Except ServiceError DB :=
  let fkOk : Bool :=
    match data.categoryId with
    | some c => db.categories.any (fun cat => decide (cat.id = c))
    | none => true
  if fkOk then
    .ok { db with
          bookmarks := db.bookmarks.map (fun b =>
            if b.id = bookmarkId then
              { b with
                personalTitle := updField data.personalTitle b.personalTitle,
                personalNote := updField data.personalNote b.personalNote,
                categoryId := updField data.categoryId b.categoryId,
                isPublic := data.isPublic.getD b.isPublic }
            else b) }
  else
    .error (.fkViolation "bookmarks")

/-- `BookmarkService.updateBookmark` (lines 285–373): ownership-guarded
fetch, partial field update, and — only when the request explicitly carries
a `tags` list — full replacement of the junction rows (delete all, then
re-attach the resolved set).  No transaction wraps these statements. -/
def updateBookmark (userId bookmarkId : Nat) (data : UpdateBookmarkRequest)
    (db : DB) : (Except ServiceError Bookmark) × DB :=
  match bookmarkFindFirst userId bookmarkId db with
  | none => (.error bookmarkNotFoundError, db)
  | some _ =>
    match bookmarkUpdateRow bookmarkId data db with
    | .error e => (.error e, db)
    | .ok db1 =>
      let step : (Except ServiceError Unit) × DB :=
        match data.tags with
        | some tags =>
          let db1' := bookmarkTagDeleteMany bookmarkId db1
          if tags.length > 0 then attachTagsLoop userId bookmarkId tags db1'
          else (.ok (), db1')
        | none => (.ok (), db1)
      match step with
      | (.error e, db2) => (.error e, db2)
      | (.ok _, db2) =>
        match db2.bookmarks.find? (fun b => decide (b.id = bookmarkId)) with
        | some updatedBookmark => (.ok updatedBookmark, db2)
        | none =>
          (.error (.bookmarkError "북마크 수정에 실패했습니다." "BOOKMARK_UPDATE_FAILED" 500), db2)

/-- `BookmarkService.deleteBookmark` (lines 378–399): ownership-guarded
fetch, then `update({ data: { deletedAt: new Date() } })` — a soft delete;
no physical row removal. -/
def deleteBookmark (userId bookmarkId : Nat) (db : DB) :
    (Except ServiceError Unit) × DB :=
  match bookmarkFindFirst userId bookmarkId db with
  | none => (.error bookmarkNotFoundError, db)
  | some _ =>
    (.ok (), { db with
               bookmarks := db.bookmarks.map (fun b =>
                 if b.id = bookmarkId then { b with deletedAt := some db.now } else b) })

/-- The upsert loop of `addTagsToBookmark` (lines 437–451). -/
def upsertTagsLoop (bookmarkId : Nat) : List Nat → DB → DB
  | [], db => db
  | tagId :: rest, db => upsertTagsLoop bookmarkId rest (bookmarkTagUpsert bookmarkId tagId db)

/-- `BookmarkService.addTagsToBookmark` (lines 404–452): ownership-guarded
fetch; then `findMany({ where: { id: { in: tagIds }, userId } })` and a
comparison of the number of rows found against the raw length of `tagIds`;
on success, each id is upserted into the junction table. -/
def addTagsToBookmark (userId bookmarkId : Nat) (tagIds : List Nat) (db : DB) :
    (Except ServiceError Unit) × DB :=
  match bookmarkFindFirst userId bookmarkId db with
  | none => (.error bookmarkNotFoundError, db)
  | some _ =>
    let userTags := db.tags.filter (fun t => decide (t.id ∈ tagIds ∧ t.userId = userId))
    if userTags.length ≠ tagIds.length then
      (.error invalidTagsError, db)
    else
      (.ok (), upsertTagsLoop bookmarkId tagIds db)

/-- `BookmarkService.removeTagFromBookmark` (lines 457–478). -/
def removeTagFromBookmark (userId bookmarkId tagId : Nat) (db : DB) :
    (Except ServiceError Unit) × DB :=
  match bookmarkFindFirst userId bookmarkId db with
  | none => (.error bookmarkNotFoundError, db)
  | some _ =>
    (.ok (), { db with
               bookmarkTags := db.bookmarkTags.filter (fun bt =>
                 decide (¬ (bt.bookmarkId = bookmarkId ∧ bt.tagId = tagId))) })

/-- `BookmarkService.updateBookmarkCategory` (lines 483–522): the only
bookmark-service path that verifies category ownership — when a non-null
`categoryId` is supplied, `findFirst({ where: { id: categoryId, userId } })`
must succeed, else `INVALID_CATEGORY`. -/
def updateBookmarkCategory (userId bookmarkId : Nat) (categoryId : Option Nat)
    (db : DB) : (Except ServiceError Unit) × DB :=
  match bookmarkFindFirst userId bookmarkId db with
  | none => (.error bookmarkNotFoundError, db)
  | some _ =>
    let check : Except ServiceError Unit :=
      match categoryId with
      | some c =>
        match db.categories.find? (fun cat => decide (cat.id = c ∧ cat.userId = userId)) with
        | some _ => .ok ()
        | none => .error invalidCategoryError
      | none => .ok ()
    match check with
    | .error e => (.error e, db)
    | .ok _ =>
      (.ok (), { db with
                 bookmarks := db.bookmarks.map (fun b =>
                   if b.id = bookmarkId then { b with categoryId := categoryId } else b) })

/-! ## CategoryService (`src/services/category.service.ts`) -/

/-- `CategoryService.createCategory` (lines 50–73): duplicate-name pre-check
on `(userId, name)`, then insert. -/
def createCategory (userId : Nat) (data : CreateCategoryRequest) (db : DB) :
    (Except ServiceError Category) × DB :=
  match db.categories.find? (fun c => decide (c.userId = userId ∧ c.name = data.name)) with
  | some _ => (.error categoryDuplicateError, db)
  | none =>
    let c : Category :=
      { id := db.nextId, name := data.name, description := data.description,
        color := data.color, userId := userId }
    (.ok c, { db with categories := db.categories ++ [c], nextId := db.nextId + 1 })

/-- `prisma.category.update({ where: { id }, data })`: applies the provided
fields and enforces the `(userId, name)` unique index against the other
rows — a violation surfaces as the raw Prisma P2002 error, since
`updateCategory` performs no application-level duplicate check. -/
def categoryUpdateRow (categoryId : Nat) (data : UpdateCategoryRequest)
    (db : DB) : Except ServiceError (Category × DB) :=
  match db.categories.find? (fun c => decide (c.id = categoryId)) with
  | none => .error (.recordNotFound "categories")
  | some c =>
    let c' : Category :=
      { c with name := data.name.getD c.name,
               description := updField data.description c.description,
               color := updField data.color c.color }
    if db.categories.any (fun o =>
        decide (o.id ≠ categoryId ∧ o.userId = c'.userId ∧ o.name = c'.name)) then
      .error (.uniqueViolation "categories")
    else
      .ok (c', { db with
                 categories := db.categories.map (fun o =>
                   if o.id = categoryId then c' else o) })

/-- `CategoryService.updateCategory` (lines 116–133): ownership-guarded
fetch, then a direct `update` — note the absence of any duplicate-name
re-check before the write. -/
def updateCategory (categoryId userId : Nat) (data : UpdateCategoryRequest)
    (db : DB) : (Except ServiceError Category) × DB :=
  match db.categories.find? (fun c => decide (c.id = categoryId ∧ c.userId = userId)) with
  | none => (.error categoryNotFoundError, db)
  | some _ =>
    match categoryUpdateRow categoryId data db with
    | .error e => (.error e, db)
    | .ok (c, db1) => (.ok c, db1)

/-! ## TagService (`src/services/tag.service.ts`) -/

/-- `prisma.tag.update({ where: { id }, data })` with the `(userId, name)`
unique index enforced against the other rows. -/
def tagUpdateRow (tagId : Nat) (data : UpdateTagRequest) (db : DB) :
    Except ServiceError (Tag × DB) :=
  match db.tags.find? (fun t => decide (t.id = tagId)) with
  | none => .error (.recordNotFound "tags")
  | some t =>
    let t' : Tag := { t with name := data.name.getD t.name }
    if db.tags.any (fun o =>
        decide (o.id ≠ tagId ∧ o.userId = t'.userId ∧ o.name = t'.name)) then
      .error (.uniqueViolation "tags")
    else
      .ok (t', { db with
                 tags := db.tags.map (fun o => if o.id = tagId then t' else o) })

/-- `TagService.updateTag` (lines 142–188): ownership-guarded fetch; when a
(truthy, i.e. non-empty) new name is provided, re-check `(userId, name)`
uniqueness against the other rows (`NOT: { id: tagId }`), rejecting with the
duplicate-name error; then update. -/
def updateTag (userId tagId : Nat) (data : UpdateTagRequest) (db : DB) :
    (Except ServiceError Tag) × DB :=
  match db.tags.find? (fun t => decide (t.id = tagId ∧ t.userId = userId)) with
  | none => (.error tagNotFoundError, db)
  | some _ =>
    let dupHit : Bool :=
      match data.name with
      | some n =>
        !(decide (n = "")) &&
        db.tags.any (fun t => decide (t.userId = userId ∧ t.name = n ∧ t.id ≠ tagId))
      | none => false
    if dupHit then
      (.error tagDuplicateError, db)
    else
      match tagUpdateRow tagId data db with
      | .error e => (.error e, db)
      | .ok (t, db1) => (.ok t, db1)

/-- The rows `prisma.tag.createMany` appends for `newTagNames`, with fresh
ids from the counter. -/
def tagsFromNames (userId : Nat) : List String → Nat → List Tag
  | [], _ => []
  | n :: rest, i => ⟨i, n, userId⟩ :: tagsFromNames userId rest (i + 1)

/-- `prisma.tag.createMany({ data: newTagNames.map(…) })`: one multi-row
`INSERT`; a `(userId, name)` unique violation — a repeated name inside the
batch or a name already present for this user — aborts the whole statement
and inserts nothing. -/
def tagCreateMany (userId : Nat) (names : List String) (db : DB) :
    Except ServiceError DB :=
  if names.Nodup ∧ ∀ n ∈ names, tagFindUnique userId n db = none then
    .ok { db with tags := db.tags ++ tagsFromNames userId names db.nextId,
                  nextId := db.nextId + names.length }
  else
    .error (.uniqueViolation "tags")

/-- `TagService.findOrCreateTags` (lines 281–313): fetch the existing rows
whose names are in the list, `createMany` the missing names (without
de-duplicating the input), re-fetch, and return the ids. -/
def findOrCreateTags (userId : Nat) (tagNames : List String) (db : DB) :
    (Except ServiceError (List Nat)) × DB :=
  let existingTags := db.tags.filter (fun t => decide (t.userId = userId ∧ t.name ∈ tagNames))
  let existingTagNames := existingTags.map (·.name)
  let newTagNames := tagNames.filter (fun n => decide (n ∉ existingTagNames))
  let step : Except ServiceError DB :=
    if newTagNames.length > 0 then tagCreateMany userId newTagNames db else .ok db
  match step with
  | .error e => (.error e, db)
  | .ok db1 =>
    let allTags := db1.tags.filter (fun t => decide (t.userId = userId ∧ t.name ∈ tagNames))
    (.ok (allTags.map (·.id)), db1)

/-! ## Store well-formedness

The invariants the database schema maintains: primary keys are unique, the
unique indexes `(userId, name)` on tags and categories and `url` on
metadata hold, the junction table has no duplicate pairs, and every id in
use is below the freshness counter. -/

/-- Well-formedness of the store. -/
def DB.WF (db : DB) : Prop :=
  db.bookmarks.Pairwise (fun a b => a.id ≠ b.id) ∧
  db.tags.Pairwise (fun a b => a.id ≠ b.id ∧ ¬ (a.userId = b.userId ∧ a.name = b.name)) ∧
  db.categories.Pairwise (fun a b => a.id ≠ b.id ∧ ¬ (a.userId = b.userId ∧ a.name = b.name)) ∧
  db.metadatas.Pairwise (fun a b => a.id ≠ b.id ∧ a.url ≠ b.url) ∧
  db.bookmarkTags.Pairwise (fun a b => ¬ (a.bookmarkId = b.bookmarkId ∧ a.tagId = b.tagId)) ∧
  (∀ b ∈ db.bookmarks, b.id < db.nextId) ∧
  (∀ t ∈ db.tags, t.id < db.nextId) ∧
  (∀ c ∈ db.categories, c.id < db.nextId) ∧
  (∀ m ∈ db.metadatas, m.id < db.nextId) ∧
  (∀ bt ∈ db.bookmarkTags, bt.bookmarkId < db.nextId ∧ bt.tagId < db.nextId)

instance (db : DB) : Decidable db.WF := by
  unfold DB.WF
  infer_instance

/-! ## Sample stores used by the witnesses -/

/-- A store holding one live bookmark owned by user 1. -/
def sampleDb1 : DB :=
  { bookmarks := [{ id := 10, personalTitle := none, personalNote := none,
                    isPublic := false, userId := 1, websiteMetadataId := 5,
                    categoryId := none, createdAt := 0, deletedAt := none }],
    metadatas := [{ id := 5, url := "https://example.com", title := none,
                    description := none, favicon := none, image := none }],
    nextId := 11 }

/-- A store with one live bookmark and one tag, both owned by user 1. -/
def sampleDb2 : DB :=
  { bookmarks := [{ id := 10, personalTitle := none, personalNote := none,
                    isPublic := false, userId := 1, websiteMetadataId := 5,
                    categoryId := none, createdAt := 0, deletedAt := none }],
    metadatas := [{ id := 5, url := "https://example.com", title := none,
                    description := none, favicon := none, image := none }],
    tags := [⟨7, "dev", 1⟩],
    nextId := 11 }

/-- A store whose bookmark 10 (user 1) is tagged with both `a` (id 1) and
`b` (id 2). -/
def sampleDb3 : DB :=
  { bookmarks := [{ id := 10, personalTitle := none, personalNote := none,
                    isPublic := false, userId := 1, websiteMetadataId := 5,
                    categoryId := none, createdAt := 0, deletedAt := none }],
    metadatas := [{ id := 5, url := "https://example.com", title := none,
                    description := none, favicon := none, image := none }],
    tags := [⟨1, "a", 1⟩, ⟨2, "b", 1⟩],
    bookmarkTags := [⟨10, 1⟩, ⟨10, 2⟩],
    nextId := 11 }

/-- A store with two tags of user 1. -/
def sampleDbTags : DB := { tags := [⟨0, "a", 1⟩, ⟨1, "b", 1⟩], nextId := 2 }

/-- A store with two categories of user 1. -/
def sampleDbCats : DB :=
  { categories := [⟨0, "a", none, none, 1⟩, ⟨1, "b", none, none, 1⟩], nextId := 2 }

/-- A store whose only category (id 0, "work") is owned by user 1. -/
def sampleDbC5 : DB := { categories := [⟨0, "work", none, none, 1⟩], nextId := 1 }

/-- The same store after user 2's bookmark referencing the foreign
category was created. -/
def sampleDbC5b : DB :=
  { metadatas := [{ id := 1, url := "https://example.com", title := none,
                    description := none, favicon := none, image := none }],
    bookmarks := [{ id := 2, personalTitle := none, personalNote := none,
                    isPublic := false, userId := 2, websiteMetadataId := 1,
                    categoryId := some 0, createdAt := 0, deletedAt := none }],
    categories := [⟨0, "work", none, none, 1⟩],
    nextId := 3 }

/-! ## General-purpose lemmas about row lookup and uniqueness -/

/-- Two members of a pairwise-separated list that the separation relation
cannot both admit are the same element. -/
theorem mem_eq_of_pairwise {α : Type} {R : α → α → Prop} {l : List α}
    (hsym : ∀ x y, R x y → R y x) (hp : l.Pairwise R) {a b : α}
    (ha : a ∈ l) (hb : b ∈ l) (hR : ¬ R a b) : a = b := by
  by_contra hne
  exact hR (hp.forall (fun x y h => hsym x y h) ha hb hne)

/-- Two tag rows of a well-formed store with the same `(userId, name)` key
are the same row. -/
theorem DB.WF.tag_key_unique {db : DB} (hwf : db.WF) {a b : Tag}
    (ha : a ∈ db.tags) (hb : b ∈ db.tags)
    (hu : a.userId = b.userId) (hn : a.name = b.name) : a = b := by
  refine mem_eq_of_pairwise ?_ hwf.2.1 ha hb ?_
  · intro x y h
    exact ⟨h.1.symm, fun hc => h.2 ⟨hc.1.symm, hc.2.symm⟩⟩
  · intro h
    exact h.2 ⟨hu, hn⟩

/-- Two tag rows of a well-formed store with the same id are the same row. -/
theorem DB.WF.tag_id_unique {db : DB} (hwf : db.WF) {a b : Tag}
    (ha : a ∈ db.tags) (hb : b ∈ db.tags) (hid : a.id = b.id) : a = b := by
  refine mem_eq_of_pairwise ?_ hwf.2.1 ha hb ?_
  · intro x y h
    exact ⟨h.1.symm, fun hc => h.2 ⟨hc.1.symm, hc.2.symm⟩⟩
  · intro h
    exact h.1 hid

/-- Two bookmark rows of a well-formed store with the same id are the same
row. -/
theorem DB.WF.bookmark_id_unique {db : DB} (hwf : db.WF) {a b : Bookmark}
    (ha : a ∈ db.bookmarks) (hb : b ∈ db.bookmarks) (hid : a.id = b.id) : a = b := by
  refine mem_eq_of_pairwise ?_ hwf.1 ha hb ?_
  · intro x y h
    exact h.symm
  · intro h
    exact h hid

/-- Two category rows of a well-formed store with the same id are the same
row. -/
theorem DB.WF.category_id_unique {db : DB} (hwf : db.WF) {a b : Category}
    (ha : a ∈ db.categories) (hb : b ∈ db.categories) (hid : a.id = b.id) : a = b := by
  refine mem_eq_of_pairwise ?_ hwf.2.2.1 ha hb ?_
  · intro x y h
    exact ⟨h.1.symm, fun hc => h.2 ⟨hc.1.symm, hc.2.symm⟩⟩
  · intro h
    exact h.1 hid

/-- Two category rows of a well-formed store with the same `(userId, name)`
key are the same row. -/
theorem DB.WF.category_key_unique {db : DB} (hwf : db.WF) {a b : Category}
    (ha : a ∈ db.categories) (hb : b ∈ db.categories)
    (hu : a.userId = b.userId) (hn : a.name = b.name) : a = b := by
  refine mem_eq_of_pairwise ?_ hwf.2.2.1 ha hb ?_
  · intro x y h
    exact ⟨h.1.symm, fun hc => h.2 ⟨hc.1.symm, hc.2.symm⟩⟩
  · intro h
    exact h.2 ⟨hu, hn⟩

/-! ## Shape lemmas for the Prisma statements -/

theorem tagCreate_ok {userId : Nat} {name : String} {db : DB} {t : Tag} {db' : DB}
    (h : tagCreate userId name db = .ok (t, db')) :
    t = ⟨db.nextId, name, userId⟩ ∧
    db' = { db with tags := db.tags ++ [⟨db.nextId, name, userId⟩],
                    nextId := db.nextId + 1 } ∧
    ∀ t' ∈ db.tags, ¬ (t'.userId = userId ∧ t'.name = name) := by
  unfold tagCreate at h
  split at h
  · exact absurd h (by simp)
  · next hany =>
    injection h with h
    injection h with h1 h2
    refine ⟨h1.symm, h2.symm, ?_⟩
    intro t' ht' hc
    rw [List.any_eq_true] at hany
    exact hany ⟨t', ht', by simpa using hc⟩

theorem bookmarkTagCreate_ok {bookmarkId tagId : Nat} {db db' : DB}
    (h : bookmarkTagCreate bookmarkId tagId db = .ok db') :
    db' = { db with bookmarkTags := db.bookmarkTags ++ [⟨bookmarkId, tagId⟩] } ∧
    ∀ bt ∈ db.bookmarkTags, ¬ (bt.bookmarkId = bookmarkId ∧ bt.tagId = tagId) := by
  unfold bookmarkTagCreate at h
  split at h
  · exact absurd h (by simp)
  · next hany =>
    injection h with h
    refine ⟨h.symm, ?_⟩
    intro bt hbt hc
    rw [List.any_eq_true] at hany
    exact hany ⟨bt, hbt, by simpa using hc⟩

theorem bookmarkTagCreate_present {bookmarkId tagId : Nat} {db : DB}
    (h : ∃ bt ∈ db.bookmarkTags, bt.bookmarkId = bookmarkId ∧ bt.tagId = tagId) :
    bookmarkTagCreate bookmarkId tagId db = .error (.uniqueViolation "bookmark_tags") := by
  unfold bookmarkTagCreate
  rw [if_pos]
  rw [List.any_eq_true]
  obtain ⟨bt, hbt, hc⟩ := h
  exact ⟨bt, hbt, by simpa using hc⟩

theorem websiteMetadataCreate_ok {url : String} {db : DB} {m : WebsiteMetadata} {db' : DB}
    (h : websiteMetadataCreate url db = .ok (m, db')) :
    m = ⟨db.nextId, url, none, none, none, none⟩ ∧
    db' = { db with metadatas := db.metadatas ++ [⟨db.nextId, url, none, none, none, none⟩],
                    nextId := db.nextId + 1 } ∧
    ∀ m' ∈ db.metadatas, m'.url ≠ url := by
  unfold websiteMetadataCreate at h
  split at h
  · exact absurd h (by simp)
  · next hany =>
    injection h with h
    injection h with h1 h2
    refine ⟨h1.symm, h2.symm, ?_⟩
    intro m' hm' hc
    rw [List.any_eq_true] at hany
    exact hany ⟨m', hm', by simpa using hc⟩

theorem bookmarkCreate_ok {userId websiteMetadataId : Nat} {data : CreateBookmarkRequest}
    {db : DB} {b : Bookmark} {db' : DB}
    (h : bookmarkCreate userId websiteMetadataId data db = .ok (b, db')) :
    b = { id := db.nextId, personalTitle := data.personalTitle,
          personalNote := data.personalNote, isPublic := data.isPublic,
          userId := userId, websiteMetadataId := websiteMetadataId,
          categoryId := data.categoryId, createdAt := db.now, deletedAt := none } ∧
    db' = { db with
            bookmarks := db.bookmarks ++
              [{ id := db.nextId, personalTitle := data.personalTitle,
                 personalNote := data.personalNote, isPublic := data.isPublic,
                 userId := userId, websiteMetadataId := websiteMetadataId,
                 categoryId := data.categoryId, createdAt := db.now, deletedAt := none }],
            nextId := db.nextId + 1 } := by
  simp only [bookmarkCreate] at h
  split at h
  · injection h with h
    injection h with h1 h2
    exact ⟨h1.symm, h2.symm⟩
  · exact absurd h (by simp)

/-! ## Well-formedness preservation for the single statements -/

theorem tagCreate_WF {userId : Nat} {name : String} {db : DB} {t : Tag} {db' : DB}
    (hwf : db.WF) (h : tagCreate userId name db = .ok (t, db')) : db'.WF := by
  obtain ⟨ht, hdb, hfresh⟩ := tagCreate_ok h
  obtain ⟨h1, h2, h3, h4, h5, h6, h7, h8, h9, h10⟩ := hwf
  subst hdb
  refine ⟨h1, ?_, h3, h4, h5,
    fun b hb => Nat.lt_succ_of_lt (h6 b hb), ?_,
    fun c hc => Nat.lt_succ_of_lt (h8 c hc),
    fun m hm => Nat.lt_succ_of_lt (h9 m hm),
    fun bt hbt => ⟨Nat.lt_succ_of_lt (h10 bt hbt).1, Nat.lt_succ_of_lt (h10 bt hbt).2⟩⟩
  · rw [List.pairwise_append]
    refine ⟨h2, by simp, ?_⟩
    intro a ha b hb
    have hbeq : b = ⟨db.nextId, name, userId⟩ := by simpa using hb
    subst hbeq
    exact ⟨Nat.ne_of_lt (h7 a ha), fun hc => hfresh a ha ⟨hc.1, hc.2⟩⟩
  · intro x hx
    rcases List.mem_append.mp hx with hold | hnew
    · exact Nat.lt_succ_of_lt (h7 x hold)
    · have : x = ⟨db.nextId, name, userId⟩ := by simpa using hnew
      subst this
      exact Nat.lt_succ_self _
theorem bookmarkTagCreate_WF {bookmarkId tagId : Nat} {db db' : DB}
    (hwf : db.WF) (hbid : bookmarkId < db.nextId) (htid : tagId < db.nextId)
    (h : bookmarkTagCreate bookmarkId tagId db = .ok db') : db'.WF := by
  obtain ⟨hdb, hfresh⟩ := bookmarkTagCreate_ok h
  obtain ⟨h1, h2, h3, h4, h5, h6, h7, h8, h9, h10⟩ := hwf
  subst hdb
  refine ⟨h1, h2, h3, h4, ?_, h6, h7, h8, h9, ?_⟩
  · rw [List.pairwise_append]
    refine ⟨h5, by simp, ?_⟩
    intro a ha b hb
    have hbeq : b = ⟨bookmarkId, tagId⟩ := by simpa using hb
    subst hbeq
    exact fun hc => hfresh a ha ⟨hc.1, hc.2⟩
  · intro x hx
    rcases List.mem_append.mp hx with hold | hnew
    · exact h10 x hold
    · have : x = ⟨bookmarkId, tagId⟩ := by simpa using hnew
      subst this
      exact ⟨hbid, htid⟩

theorem websiteMetadataCreate_WF {url : String} {db : DB} {m : WebsiteMetadata} {db' : DB}
    (hwf : db.WF) (h : websiteMetadataCreate url db = .ok (m, db')) : db'.WF := by
  obtain ⟨hm, hdb, hfresh⟩ := websiteMetadataCreate_ok h
  obtain ⟨h1, h2, h3, h4, h5, h6, h7, h8, h9, h10⟩ := hwf
  subst hdb
  refine ⟨h1, h2, h3, ?_, h5,
    fun b hb => Nat.lt_succ_of_lt (h6 b hb),
    fun t ht => Nat.lt_succ_of_lt (h7 t ht),
    fun c hc => Nat.lt_succ_of_lt (h8 c hc), ?_,
    fun bt hbt => ⟨Nat.lt_succ_of_lt (h10 bt hbt).1, Nat.lt_succ_of_lt (h10 bt hbt).2⟩⟩
  · rw [List.pairwise_append]
    refine ⟨h4, by simp, ?_⟩
    intro a ha b hb
    have hbeq : b = ⟨db.nextId, url, none, none, none, none⟩ := by simpa using hb
    subst hbeq
    exact ⟨Nat.ne_of_lt (h9 a ha), hfresh a ha⟩
  · intro x hx
    rcases List.mem_append.mp hx with hold | hnew
    · exact Nat.lt_succ_of_lt (h9 x hold)
    · have : x = ⟨db.nextId, url, none, none, none, none⟩ := by simpa using hnew
      subst this
      exact Nat.lt_succ_self _

theorem bookmarkCreate_WF {userId websiteMetadataId : Nat} {data : CreateBookmarkRequest}
    {db : DB} {b : Bookmark} {db' : DB}
    (hwf : db.WF) (h : bookmarkCreate userId websiteMetadataId data db = .ok (b, db')) :
    db'.WF := by
  obtain ⟨hb, hdb⟩ := bookmarkCreate_ok h
  obtain ⟨h1, h2, h3, h4, h5, h6, h7, h8, h9, h10⟩ := hwf
  subst hdb
  refine ⟨?_, h2, h3, h4, h5, ?_,
    fun t ht => Nat.lt_succ_of_lt (h7 t ht),
    fun c hc => Nat.lt_succ_of_lt (h8 c hc),
    fun m hm => Nat.lt_succ_of_lt (h9 m hm),
    fun bt hbt => ⟨Nat.lt_succ_of_lt (h10 bt hbt).1, Nat.lt_succ_of_lt (h10 bt hbt).2⟩⟩
  · rw [List.pairwise_append]
    refine ⟨h1, by simp, ?_⟩
    intro a ha x hx
    have hxeq := List.mem_singleton.mp hx
    subst hxeq
    exact Nat.ne_of_lt (h6 a ha)
  · intro x hx
    rcases List.mem_append.mp hx with hold | hnew
    · exact Nat.lt_succ_of_lt (h6 x hold)
    · have hxeq := List.mem_singleton.mp hnew
      subst hxeq
      exact Nat.lt_succ_self _

/-! ## Lemmas about the shared tag-attachment loop -/

theorem attachTagsLoop_frame (u bid : Nat) :
    ∀ (names : List String) (db : DB),
      ((attachTagsLoop u bid names db).2).metadatas = db.metadatas ∧
      ((attachTagsLoop u bid names db).2).bookmarks = db.bookmarks ∧
      ((attachTagsLoop u bid names db).2).categories = db.categories ∧
      ((attachTagsLoop u bid names db).2).now = db.now ∧
      db.nextId ≤ ((attachTagsLoop u bid names db).2).nextId
  | [], db => ⟨rfl, rfl, rfl, rfl, Nat.le_refl _⟩
  | name :: rest, db => by
    unfold attachTagsLoop
    cases hft : tagFindUnique u name db with
    | some t =>
      dsimp only
      cases hbt : bookmarkTagCreate bid t.id db with
      | error e => exact ⟨rfl, rfl, rfl, rfl, Nat.le_refl _⟩
      | ok db2 =>
        obtain ⟨hdb2, -⟩ := bookmarkTagCreate_ok hbt
        subst hdb2
        have ih := attachTagsLoop_frame u bid rest
          { db with bookmarkTags := db.bookmarkTags ++ [⟨bid, t.id⟩] }
        exact ⟨ih.1, ih.2.1, ih.2.2.1, ih.2.2.2.1, ih.2.2.2.2⟩
    | none =>
      dsimp only
      cases hct : tagCreate u name db with
      | error e => exact ⟨rfl, rfl, rfl, rfl, Nat.le_refl _⟩
      | ok pair =>
        obtain ⟨t, db1⟩ := pair
        obtain ⟨ht, hdb1, -⟩ := tagCreate_ok hct
        subst hdb1
        dsimp only
        cases hbt : bookmarkTagCreate bid t.id
            { db with tags := db.tags ++ [⟨db.nextId, name, u⟩], nextId := db.nextId + 1 } with
        | error e => exact ⟨rfl, rfl, rfl, rfl, Nat.le_succ _⟩
        | ok db2 =>
          obtain ⟨hdb2, -⟩ := bookmarkTagCreate_ok hbt
          subst hdb2
          have ih := attachTagsLoop_frame u bid rest
            { db with tags := db.tags ++ [⟨db.nextId, name, u⟩], nextId := db.nextId + 1,
                      bookmarkTags := db.bookmarkTags ++ [⟨bid, t.id⟩] }
          exact ⟨ih.1, ih.2.1, ih.2.2.1, ih.2.2.2.1,
            Nat.le_trans (Nat.le_succ _) ih.2.2.2.2⟩

theorem tagFindUnique_some {u : Nat} {n : String} {db : DB} {t : Tag}
    (h : tagFindUnique u n db = some t) :
    t ∈ db.tags ∧ t.userId = u ∧ t.name = n := by
  refine ⟨List.mem_of_find?_eq_some h, ?_⟩
  have hp := List.find?_some h
  rw [decide_eq_true_iff] at hp
  exact hp

theorem tagFindUnique_none {u : Nat} {n : String} {db : DB}
    (h : tagFindUnique u n db = none) :
    ∀ t ∈ db.tags, ¬ (t.userId = u ∧ t.name = n) := by
  rw [tagFindUnique, List.find?_eq_none] at h
  intro t ht
  simpa using h t ht

theorem tagCreate_error_shape {u : Nat} {n : String} {db : DB} {e : ServiceError}
    (h : tagCreate u n db = .error e) :
    ∃ t ∈ db.tags, t.userId = u ∧ t.name = n := by
  unfold tagCreate at h
  split at h
  · next hany =>
    rw [List.any_eq_true] at hany
    obtain ⟨t, ht, hp⟩ := hany
    rw [decide_eq_true_iff] at hp
    exact ⟨t, ht, hp⟩
  · exact absurd h (by simp)

/-- Failure of the tag-attachment loop: a list with a repeated name, or a
name whose tag is already linked to the bookmark, always makes the loop
fail on a constraint violation (the second link of the same pair hits the
junction primary key). -/
theorem attachTagsLoop_err (u bid : Nat) :
    ∀ (names : List String) (db : DB), db.WF → bid < db.nextId →
      (¬ names.Nodup ∨ ∃ n ∈ names, ∃ t ∈ db.tags, t.userId = u ∧ t.name = n ∧
          ∃ bt ∈ db.bookmarkTags, bt.bookmarkId = bid ∧ bt.tagId = t.id) →
      ∃ e, (attachTagsLoop u bid names db).1 = .error e
  | [], db, hwf, hbid, hbad => by
    rcases hbad with hnd | ⟨n, hn, -⟩
    · exact absurd List.nodup_nil hnd
    · exact absurd hn (List.not_mem_nil n)
  | name :: rest, db, hwf, hbid, hbad => by
    by_cases hpres : ∃ t ∈ db.tags, t.userId = u ∧ t.name = name ∧
        ∃ bt ∈ db.bookmarkTags, bt.bookmarkId = bid ∧ bt.tagId = t.id
    · -- The junction row for this name already exists: the insert fails now.
      obtain ⟨t0, ht0, ht0u, ht0n, bt0, hbt0, hbt0b, hbt0t⟩ := hpres
      have hsome : (tagFindUnique u name db).isSome := by
        rw [tagFindUnique, List.find?_isSome]
        exact ⟨t0, ht0, by simp [ht0u, ht0n]⟩
      obtain ⟨t1, hft⟩ := Option.isSome_iff_exists.mp hsome
      obtain ⟨ht1, ht1u, ht1n⟩ := tagFindUnique_some hft
      have ht1eq : t1 = t0 := hwf.tag_key_unique ht1 ht0 (ht1u.trans ht0u.symm)
        (ht1n.trans ht0n.symm)
      have herr : bookmarkTagCreate bid t1.id db = .error (.uniqueViolation "bookmark_tags") :=
        bookmarkTagCreate_present ⟨bt0, hbt0, hbt0b, by rw [hbt0t, ht1eq]⟩
      refine ⟨.uniqueViolation "bookmark_tags", ?_⟩
      unfold attachTagsLoop
      rw [hft]
      dsimp only
      rw [herr]
    · -- No junction for this name yet: the first step goes through and the
      -- bad pattern persists into the recursive call.
      cases hft : tagFindUnique u name db with
      | some t =>
        obtain ⟨ht, htu, htn⟩ := tagFindUnique_some hft
        cases hbt : bookmarkTagCreate bid t.id db with
        | error e =>
          refine ⟨e, ?_⟩
          unfold attachTagsLoop
          rw [hft]
          dsimp only
          rw [hbt]
        | ok db2 =>
          obtain ⟨hdb2, -⟩ := bookmarkTagCreate_ok hbt
          have hwf2 : db2.WF :=
            bookmarkTagCreate_WF hwf hbid (hwf.2.2.2.2.2.2.1 t ht) hbt
          have hbid2 : bid < db2.nextId := by rw [hdb2]; exact hbid
          have hbad2 : ¬ rest.Nodup ∨ ∃ n ∈ rest, ∃ t' ∈ db2.tags,
              t'.userId = u ∧ t'.name = n ∧
              ∃ bt' ∈ db2.bookmarkTags, bt'.bookmarkId = bid ∧ bt'.tagId = t'.id := by
            rcases hbad with hnd | ⟨n, hn, t', ht', ht'u, ht'n, bt', hbt', hb, hb2⟩
            · by_cases hmem : name ∈ rest
              · refine Or.inr ⟨name, hmem, t, ?_, htu, htn, ⟨bid, t.id⟩, ?_, rfl, rfl⟩
                · rw [hdb2]; exact ht
                · rw [hdb2]; simp
              · refine Or.inl ?_
                intro hrest
                exact hnd (List.nodup_cons.mpr ⟨hmem, hrest⟩)
            · rcases List.mem_cons.mp hn with rfl | hnrest
              · exact absurd ⟨t', ht', ht'u, ht'n, bt', hbt', hb, hb2⟩ hpres
              · refine Or.inr ⟨n, hnrest, t', ?_, ht'u, ht'n, bt', ?_, hb, hb2⟩
                · rw [hdb2]; exact ht'
                · rw [hdb2]; exact List.mem_append_left _ hbt'
          obtain ⟨e, he⟩ := attachTagsLoop_err u bid rest db2 hwf2 hbid2 hbad2
          refine ⟨e, ?_⟩
          unfold attachTagsLoop
          rw [hft]
          dsimp only
          rw [hbt]
          exact he
      | none =>
        cases hct : tagCreate u name db with
        | error e =>
          obtain ⟨t', ht', hp⟩ := tagCreate_error_shape hct
          exact absurd hp (tagFindUnique_none hft t' ht')
        | ok pair =>
          obtain ⟨t, db1⟩ := pair
          obtain ⟨hteq, hdb1, -⟩ := tagCreate_ok hct
          have hwf1 : db1.WF := tagCreate_WF hwf hct
          have htid1 : t.id < db1.nextId := by rw [hteq, hdb1]; exact Nat.lt_succ_self _
          have hbid1 : bid < db1.nextId := by rw [hdb1]; exact Nat.lt_succ_of_lt hbid
          cases hbt : bookmarkTagCreate bid t.id db1 with
          | error e =>
            refine ⟨e, ?_⟩
            unfold attachTagsLoop
            rw [hft]
            dsimp only
            rw [hct]
            dsimp only
            rw [hbt]
          | ok db2 =>
            obtain ⟨hdb2, -⟩ := bookmarkTagCreate_ok hbt
            have hwf2 : db2.WF := bookmarkTagCreate_WF hwf1 hbid1 htid1 hbt
            have hbid2 : bid < db2.nextId := by rw [hdb2]; exact hbid1
            have hbad2 : ¬ rest.Nodup ∨ ∃ n ∈ rest, ∃ t' ∈ db2.tags,
                t'.userId = u ∧ t'.name = n ∧
                ∃ bt' ∈ db2.bookmarkTags, bt'.bookmarkId = bid ∧ bt'.tagId = t'.id := by
              rcases hbad with hnd | ⟨n, hn, t', ht', ht'u, ht'n, bt', hbt', hb, hb2⟩
              · by_cases hmem : name ∈ rest
                · refine Or.inr ⟨name, hmem, t, ?_, ?_, ?_, ⟨bid, t.id⟩, ?_, rfl, rfl⟩
                  · rw [hdb2, hdb1]
                    simp [hteq]
                  · rw [hteq]
                  · rw [hteq]
                  · rw [hdb2]; simp
                · refine Or.inl ?_
                  intro hrest
                  exact hnd (List.nodup_cons.mpr ⟨hmem, hrest⟩)
              · rcases List.mem_cons.mp hn with rfl | hnrest
                · exact absurd ⟨ht'u, ht'n⟩ (tagFindUnique_none hft t' ht')
                · refine Or.inr ⟨n, hnrest, t', ?_, ht'u, ht'n, bt', ?_, hb, hb2⟩
                  · rw [hdb2, hdb1]
                    exact List.mem_append_left _ ht'
                  · rw [hdb2, hdb1]
                    exact List.mem_append_left _ hbt'
            obtain ⟨e, he⟩ := attachTagsLoop_err u bid rest db2 hwf2 hbid2 hbad2
            refine ⟨e, ?_⟩
            unfold attachTagsLoop
            rw [hft]
            dsimp only
            rw [hct]
            dsimp only
            rw [hbt]
            exact he

/-- Success of the tag-attachment loop: the final tag table extends the
initial one by rows for the requested names only, every requested name ends
up with a tag row, the store stays well-formed, and the junction rows
afterwards are exactly the initial ones plus one row linking the bookmark
to the (unique) tag of each requested name. -/
theorem attachTagsLoop_ok (u bid : Nat) :
    ∀ (names : List String) (db db' : DB), db.WF → bid < db.nextId →
      attachTagsLoop u bid names db = (.ok (), db') →
      db'.WF ∧ bid < db'.nextId ∧
      (∀ t ∈ db.tags, t ∈ db'.tags) ∧
      (∀ t ∈ db'.tags, t ∈ db.tags ∨ (t.userId = u ∧ t.name ∈ names)) ∧
      (∀ n ∈ names, ∃ t ∈ db'.tags, t.userId = u ∧ t.name = n) ∧
      (∀ bt, bt ∈ db'.bookmarkTags ↔ bt ∈ db.bookmarkTags ∨
        (bt.bookmarkId = bid ∧ ∃ t ∈ db'.tags, t.id = bt.tagId ∧ t.userId = u ∧ t.name ∈ names))
  | [], db, db', hwf, hbid, h => by
    have hdb : db = db' := congrArg Prod.snd h
    subst hdb
    refine ⟨hwf, hbid, fun t ht => ht, fun t ht => Or.inl ht,
      fun n hn => absurd hn (List.not_mem_nil n), fun bt => ?_⟩
    simp
  | name :: rest, db, db', hwf, hbid, h => by
    unfold attachTagsLoop at h
    cases hft : tagFindUnique u name db with
    | some t =>
      rw [hft] at h
      dsimp only at h
      obtain ⟨ht, htu, htn⟩ := tagFindUnique_some hft
      cases hbt : bookmarkTagCreate bid t.id db with
      | error e =>
        rw [hbt] at h
        exact absurd (congrArg Prod.fst h) (by simp)
      | ok db2 =>
        rw [hbt] at h
        obtain ⟨hdb2, -⟩ := bookmarkTagCreate_ok hbt
        have hwf2 : db2.WF := bookmarkTagCreate_WF hwf hbid (hwf.2.2.2.2.2.2.1 t ht) hbt
        have hbid2 : bid < db2.nextId := by rw [hdb2]; exact hbid
        obtain ⟨hwf', hbid', hmono, hrev, hcover, hiff⟩ :=
          attachTagsLoop_ok u bid rest db2 db' hwf2 hbid2 h
        have htags2 : db2.tags = db.tags := by rw [hdb2]
        have hbt2 : db2.bookmarkTags = db.bookmarkTags ++ [⟨bid, t.id⟩] := by rw [hdb2]
        have htmem' : t ∈ db'.tags := hmono t (htags2 ▸ ht)
        refine ⟨hwf', hbid', fun x hx => hmono x (htags2 ▸ hx), ?_, ?_, ?_⟩
        · intro x hx
          rcases hrev x hx with hold | ⟨hxu, hxn⟩
          · exact Or.inl (htags2 ▸ hold)
          · exact Or.inr ⟨hxu, List.mem_cons_of_mem _ hxn⟩
        · intro n hn
          rcases List.mem_cons.mp hn with rfl | hnrest
          · exact ⟨t, htmem', htu, htn⟩
          · exact hcover n hnrest
        · intro bt
          rw [hiff, hbt2]
          constructor
          · rintro (hmem | ⟨hbb, t', ht', ht'id, ht'u, ht'n⟩)
            · rcases List.mem_append.mp hmem with hold | hnew
              · exact Or.inl hold
              · have hbteq := List.mem_singleton.mp hnew
                subst hbteq
                exact Or.inr ⟨rfl, t, htmem', rfl, htu, by rw [htn]; exact List.mem_cons_self _ _⟩
            · exact Or.inr ⟨hbb, t', ht', ht'id, ht'u, List.mem_cons_of_mem _ ht'n⟩
          · rintro (hold | ⟨hbb, t', ht', ht'id, ht'u, ht'n⟩)
            · exact Or.inl (List.mem_append_left _ hold)
            · rcases List.mem_cons.mp ht'n with hname | hnrest
              · have ht'eq : t' = t :=
                  hwf'.tag_key_unique ht' htmem' (ht'u.trans htu.symm) (hname.trans htn.symm)
                refine Or.inl (List.mem_append_right _ ?_)
                rcases bt with ⟨bb, bti⟩
                dsimp only at hbb ht'id
                subst hbb
                have hbti : bti = t.id := by rw [← ht'id, ht'eq]
                subst hbti
                simp
              · exact Or.inr ⟨hbb, t', ht', ht'id, ht'u, hnrest⟩
    | none =>
      rw [hft] at h
      dsimp only at h
      cases hct : tagCreate u name db with
      | error e =>
        obtain ⟨t', ht', hp⟩ := tagCreate_error_shape hct
        exact absurd hp (tagFindUnique_none hft t' ht')
      | ok pair =>
        obtain ⟨t, db1⟩ := pair
        rw [hct] at h
        dsimp only at h
        obtain ⟨hteq, hdb1, -⟩ := tagCreate_ok hct
        have hwf1 : db1.WF := tagCreate_WF hwf hct
        have htid1 : t.id < db1.nextId := by rw [hteq, hdb1]; exact Nat.lt_succ_self _
        have hbid1 : bid < db1.nextId := by rw [hdb1]; exact Nat.lt_succ_of_lt hbid
        cases hbt : bookmarkTagCreate bid t.id db1 with
        | error e =>
          rw [hbt] at h
          exact absurd (congrArg Prod.fst h) (by simp)
        | ok db2 =>
          rw [hbt] at h
          obtain ⟨hdb2, -⟩ := bookmarkTagCreate_ok hbt
          have hwf2 : db2.WF := bookmarkTagCreate_WF hwf1 hbid1 htid1 hbt
          have hbid2 : bid < db2.nextId := by rw [hdb2]; exact hbid1
          obtain ⟨hwf', hbid', hmono, hrev, hcover, hiff⟩ :=
            attachTagsLoop_ok u bid rest db2 db' hwf2 hbid2 h
          have htags2 : db2.tags = db.tags ++ [t] := by
            rw [hdb2, hdb1, hteq]
          have hbt2 : db2.bookmarkTags = db.bookmarkTags ++ [⟨bid, t.id⟩] := by
            rw [hdb2, hdb1]
          have htu : t.userId = u := by rw [hteq]
          have htn : t.name = name := by rw [hteq]
          have htmem' : t ∈ db'.tags := hmono t (by rw [htags2]; simp)
          refine ⟨hwf', hbid', ?_, ?_, ?_, ?_⟩
          · intro x hx
            exact hmono x (by rw [htags2]; exact List.mem_append_left _ hx)
          · intro x hx
            rcases hrev x hx with hold | ⟨hxu, hxn⟩
            · rw [htags2] at hold
              rcases List.mem_append.mp hold with hdbx | hnewx
              · exact Or.inl hdbx
              · have hxt := List.mem_singleton.mp hnewx
                subst hxt
                exact Or.inr ⟨htu, by rw [htn]; exact List.mem_cons_self _ _⟩
            · exact Or.inr ⟨hxu, List.mem_cons_of_mem _ hxn⟩
          · intro n hn
            rcases List.mem_cons.mp hn with rfl | hnrest
            · exact ⟨t, htmem', htu, htn⟩
            · exact hcover n hnrest
          · intro bt
            rw [hiff, hbt2]
            constructor
            · rintro (hmem | ⟨hbb, t', ht', ht'id, ht'u, ht'n⟩)
              · rcases List.mem_append.mp hmem with hold | hnew
                · exact Or.inl hold
                · have hbteq := List.mem_singleton.mp hnew
                  subst hbteq
                  exact Or.inr ⟨rfl, t, htmem', rfl, htu, by rw [htn]; exact List.mem_cons_self _ _⟩
              · exact Or.inr ⟨hbb, t', ht', ht'id, ht'u, List.mem_cons_of_mem _ ht'n⟩
            · rintro (hold | ⟨hbb, t', ht', ht'id, ht'u, ht'n⟩)
              · exact Or.inl (List.mem_append_left _ hold)
              · rcases List.mem_cons.mp ht'n with hname | hnrest
                · have ht'eq : t' = t :=
                    hwf'.tag_key_unique ht' htmem' (ht'u.trans htu.symm) (hname.trans htn.symm)
                  refine Or.inl (List.mem_append_right _ ?_)
                  rcases bt with ⟨bb, bti⟩
                  dsimp only at hbb ht'id
                  subst hbb
                  have hbti : bti = t.id := by rw [← ht'id, ht'eq]
                  subst hbti
                  simp
                · exact Or.inr ⟨hbb, t', ht', ht'id, ht'u, hnrest⟩

/-! ## Ceiling-division facts for the pagination arithmetic -/

theorem ceilDivNat_le_mul (t l : Nat) (hl : 1 ≤ l) : t ≤ ceilDivNat t l * l := by
  obtain ⟨l', rfl⟩ : ∃ l', l = l' + 1 := ⟨l - 1, by omega⟩
  unfold ceilDivNat
  have hsub : t + (l' + 1) - 1 = t + l' := by omega
  rw [hsub]
  have h1 := Nat.div_add_mod (t + l') (l' + 1)
  have h2 : (t + l') % (l' + 1) < l' + 1 := Nat.mod_lt _ (by omega)
  have h3 : (t + l') / (l' + 1) * (l' + 1) = (l' + 1) * ((t + l') / (l' + 1)) :=
    Nat.mul_comm _ _
  rw [h3]
  omega

theorem ceilDivNat_le_of_le_mul {t l : Nat} (hl : 1 ≤ l) {k : Nat}
    (h : t ≤ k * l) : ceilDivNat t l ≤ k := by
  obtain ⟨l', rfl⟩ : ∃ l', l = l' + 1 := ⟨l - 1, by omega⟩
  unfold ceilDivNat
  have hsub : t + (l' + 1) - 1 = t + l' := by omega
  rw [hsub]
  have hle : t + l' ≤ l' + (l' + 1) * k := by
    have : k * (l' + 1) = (l' + 1) * k := Nat.mul_comm _ _
    omega
  calc (t + l') / (l' + 1) ≤ (l' + (l' + 1) * k) / (l' + 1) :=
        Nat.div_le_div_right hle
    _ = l' / (l' + 1) + k := Nat.add_mul_div_left _ _ (by omega)
    _ = k := by rw [Nat.div_eq_of_lt (by omega)]; omega

theorem ceilDivNat_zero (l : Nat) (hl : 1 ≤ l) : ceilDivNat 0 l = 0 := by
  unfold ceilDivNat
  exact Nat.div_eq_of_lt (by omega)

/-! ## The claims -/

/-- C1: for every requester B and bookmark id such that no live bookmark
with that id is owned by B — i.e. the row does not exist, is soft-deleted,
or belongs to a different owner — `getBookmarkById`, `updateBookmark` (for
every payload) and `deleteBookmark` all fail with the same
`BOOKMARK_NOT_FOUND`-coded 404 error value, the store is untouched, and no
bookmark data is returned.  Because all three paths return the single error
constant `bookmarkNotFoundError`, the error produced for a foreign-owned
row is literally identical to the one produced for a nonexistent row. -/
theorem claim1_ownership_isolation (db : DB) (userB bookmarkId : Nat)
    (h : ∀ b ∈ db.bookmarks,
      ¬ (b.id = bookmarkId ∧ b.userId = userB ∧ b.deletedAt = none)) :
    getBookmarkById userB bookmarkId db = .error bookmarkNotFoundError ∧
    (∀ data, updateBookmark userB bookmarkId data db = (.error bookmarkNotFoundError, db)) ∧
    deleteBookmark userB bookmarkId db = (.error bookmarkNotFoundError, db) ∧
    bookmarkNotFoundError =
      .bookmarkError "북마크를 찾을 수 없습니다." "BOOKMARK_NOT_FOUND" 404 := by
  have hfind : bookmarkFindFirst userB bookmarkId db = none := by
    rw [bookmarkFindFirst, List.find?_eq_none]
    intro b hb
    simpa using h b hb
  refine ⟨?_, ?_, ?_, rfl⟩
  · rw [getBookmarkById, hfind]
  · intro data
    rw [updateBookmark, hfind]
  · rw [deleteBookmark, hfind]

/-- Witness for C1: a store whose only bookmark is owned by user 1; the
lookups by user 2 all report `BOOKMARK_NOT_FOUND`. -/
theorem claim1_witness :
    getBookmarkById 2 10 sampleDb1 = .error bookmarkNotFoundError ∧
    updateBookmark 2 10 {} sampleDb1 = (.error bookmarkNotFoundError, sampleDb1) ∧
    deleteBookmark 2 10 sampleDb1 = (.error bookmarkNotFoundError, sampleDb1) := by
  obtain ⟨h1, h2, h3, _⟩ := claim1_ownership_isolation sampleDb1 2 10 (by decide)
  exact ⟨h1, h2 {}, h3⟩

/-- C8: for every list query with `page ≥ 1` and `limit ≥ 1` (the schema
bounds), the pagination metadata of `getBookmarks` satisfies the ceiling
characterisation `totalPages = ⌈totalCount / limit⌉` (stated as: it is the
least `k` with `totalCount ≤ k·limit`), `hasNext = (page < totalPages)`,
`hasPrev = (page > 1)`, and `totalCount` counts exactly the rows matching
the same `whereCondition` as the listed page; an empty match yields
`totalCount = 0` and `totalPages = 0` with no failure (the function is
total). -/
theorem claim8_pagination (db : DB) (userId : Nat) (query : GetBookmarksQuery)
    (hlimit : 1 ≤ query.limit) :
    (getBookmarks userId query db).pagination.totalCount =
      (db.bookmarks.filter (bookmarkMatches db userId query)).length ∧
    (getBookmarks userId query db).pagination.totalCount ≤
      (getBookmarks userId query db).pagination.totalPages * query.limit ∧
    (∀ k, (getBookmarks userId query db).pagination.totalCount ≤ k * query.limit →
      (getBookmarks userId query db).pagination.totalPages ≤ k) ∧
    (getBookmarks userId query db).pagination.hasNext =
      decide (query.page < (getBookmarks userId query db).pagination.totalPages) ∧
    (getBookmarks userId query db).pagination.hasPrev = decide (query.page > 1) ∧
    ((getBookmarks userId query db).pagination.totalCount = 0 →
      (getBookmarks userId query db).pagination.totalPages = 0) := by
  refine ⟨rfl, ?_, ?_, rfl, rfl, ?_⟩
  · exact ceilDivNat_le_mul _ _ hlimit
  · intro k hk
    exact ceilDivNat_le_of_le_mul hlimit hk
  · intro h0
    show ceilDivNat ((db.bookmarks.filter (bookmarkMatches db userId query)).length)
      query.limit = 0
    rw [show (db.bookmarks.filter (bookmarkMatches db userId query)).length = 0 from h0]
    exact ceilDivNat_zero _ hlimit

/-- `getOrCreateWebsiteMetadata` never fails: the create branch runs only
when the lookup found nothing, so the unique index cannot fire. -/
theorem getOrCreateWebsiteMetadata_shape (url : String) (db : DB) :
    ∃ m db1, getOrCreateWebsiteMetadata url db = .ok (m, db1) ∧
      (db1 = db ∨ websiteMetadataCreate url db = .ok (m, db1)) := by
  unfold getOrCreateWebsiteMetadata
  cases hf : websiteMetadataFindUnique url db with
  | some m => exact ⟨m, db, rfl, Or.inl rfl⟩
  | none =>
    rw [websiteMetadataFindUnique] at hf
    have hany : (db.metadatas.any fun m => decide (m.url = url)) = false := by
      rw [List.any_eq_false]
      intro m hm
      simpa using List.find?_eq_none.mp hf m hm
    refine ⟨⟨db.nextId, url, none, none, none, none⟩,
      { db with metadatas := db.metadatas ++ [⟨db.nextId, url, none, none, none, none⟩],
                nextId := db.nextId + 1 }, ?_, Or.inr ?_⟩ <;>
      · unfold websiteMetadataCreate
        rw [hany]
        rfl

/-- `bookmarkCreate` succeeds whenever the request carries no category
reference. -/
theorem bookmarkCreate_none_ok (u mid : Nat) (data : CreateBookmarkRequest)
    (db : DB) (hcat : data.categoryId = none) :
    ∃ b db2, bookmarkCreate u mid data db = .ok (b, db2) := by
  unfold bookmarkCreate
  rw [hcat]
  exact ⟨_, _, rfl⟩

/-- A failing `createBookmark` call still leaves its already-inserted
Bookmark row behind: with no category reference and a tag list that repeats
a name, the call fails on the junction primary key after the bookmark
insert, and the store afterwards holds one more bookmark row than before —
there is no enclosing transaction to roll the insert back. -/
theorem createBookmark_dup_tags (db : DB) (u : Nat) (data : CreateBookmarkRequest)
    (names : List String) (hwf : db.WF) (hcat : data.categoryId = none)
    (htags : data.tags = some names) (hdup : ¬ names.Nodup) :
    (∃ e, (createBookmark u data db).1 = .error e) ∧
    ((createBookmark u data db).2).bookmarks.length = db.bookmarks.length + 1 := by
  obtain ⟨m, db1, hm, hshape⟩ := getOrCreateWebsiteMetadata_shape data.url db
  have hwf1 : db1.WF := by
    rcases hshape with rfl | hc
    · exact hwf
    · exact websiteMetadataCreate_WF hwf hc
  have hbooks1 : db1.bookmarks = db.bookmarks := by
    rcases hshape with rfl | hc
    · rfl
    · rw [(websiteMetadataCreate_ok hc).2.1]
  obtain ⟨b, db2, hbc⟩ := bookmarkCreate_none_ok u m.id data db1 hcat
  obtain ⟨hbeq, hdb2⟩ := bookmarkCreate_ok hbc
  have hwf2 : db2.WF := bookmarkCreate_WF hwf1 hbc
  have hbid2 : b.id < db2.nextId := by
    rw [hbeq, hdb2]
    exact Nat.lt_succ_self _
  have hpos : names.length > 0 := by
    cases names with
    | nil => exact absurd List.nodup_nil hdup
    | cons a l => exact Nat.succ_pos _
  obtain ⟨e, he⟩ := attachTagsLoop_err u b.id names db2 hwf2 hbid2 (Or.inl hdup)
  have hframe := attachTagsLoop_frame u b.id names db2
  cases hp : attachTagsLoop u b.id names db2 with
  | mk r db3 =>
    have hr : r = .error e := by rw [hp] at he; exact he
    subst hr
    have hdb3books : db3.bookmarks = db2.bookmarks := by
      have := hframe.2.1
      rw [hp] at this
      exact this
    have hresult : createBookmark u data db = (.error e, db3) := by
      unfold createBookmark
      rw [hm]
      dsimp only
      rw [hbc]
      dsimp only
      rw [htags]
      dsimp only
      rw [if_pos hpos, hp]
    rw [hresult]
    refine ⟨⟨e, rfl⟩, ?_⟩
    rw [hdb3books, hdb2]
    dsimp only
    rw [List.length_append, hbooks1]
    rfl

/-- C2, counterexample: `createBookmark` by user 1 of `https://example.com`
with tags `["a", "a"]` on an empty store fails (junction primary-key
violation on the repeated name) yet leaves the bookmark row inserted — the
writes of the failing call were not rolled back, so they were not inside
one transaction. -/
theorem claim2_counterexample :
    (createBookmark 1 { url := "https://example.com", tags := some ["a", "a"] }
        ({} : DB)).1 = .error (.uniqueViolation "bookmark_tags") ∧
    ((createBookmark 1 { url := "https://example.com", tags := some ["a", "a"] }
        ({} : DB)).2).bookmarks.length = 1 := ⟨rfl, rfl⟩

/-- C2, amended: `createBookmark` (and the identical tag-replacement loop of
`updateBookmark`) runs its statements outside any transaction: when a call
fails after the Bookmark insert — e.g. a repeated tag name hitting the
BookmarkTag primary key — every write already issued by that call stays
committed, leaving an orphaned bookmark row behind. -/
theorem claim2_no_transaction (db : DB) (u : Nat) (data : CreateBookmarkRequest)
    (names : List String) (hwf : db.WF) (hcat : data.categoryId = none)
    (htags : data.tags = some names) (hdup : ¬ names.Nodup) :
    (∃ e, (createBookmark u data db).1 = .error e) ∧
    ((createBookmark u data db).2).bookmarks.length = db.bookmarks.length + 1 :=
  createBookmark_dup_tags db u data names hwf hcat htags hdup

/-- Witness for C2's amended statement: the concrete failing call of the
counterexample, through the general theorem. -/
theorem claim2_witness :
    (∃ e, (createBookmark 1 { url := "https://example.com", tags := some ["a", "a"] }
        ({} : DB)).1 = .error e) ∧
    ((createBookmark 1 { url := "https://example.com", tags := some ["a", "a"] }
        ({} : DB)).2).bookmarks.length = ({} : DB).bookmarks.length + 1 :=
  claim2_no_transaction ({} : DB) 1 _ ["a", "a"] (by decide) rfl rfl (by decide)

/-- The update statement writes only the bookmark table, rewriting the row
with the matching id by the provided fields. -/
theorem bookmarkUpdateRow_ok_shape {bid : Nat} {data : UpdateBookmarkRequest}
    {db db' : DB} (h : bookmarkUpdateRow bid data db = .ok db') :
    db' = { db with
            bookmarks := db.bookmarks.map (fun b =>
              if b.id = bid then
                { b with
                  personalTitle := updField data.personalTitle b.personalTitle,
                  personalNote := updField data.personalNote b.personalNote,
                  categoryId := updField data.categoryId b.categoryId,
                  isPublic := data.isPublic.getD b.isPublic }
              else b) } := by
  simp only [bookmarkUpdateRow] at h
  split at h
  · injection h with h
    exact h.symm
  · exact absurd h (by simp)

theorem bookmarkUpdateRow_WF {bid : Nat} {data : UpdateBookmarkRequest}
    {db db' : DB} (hwf : db.WF) (h : bookmarkUpdateRow bid data db = .ok db') :
    db'.WF := by
  rw [bookmarkUpdateRow_ok_shape h]
  obtain ⟨h1, h2, h3, h4, h5, h6, h7, h8, h9, h10⟩ := hwf
  have hid : ∀ b : Bookmark,
      (if b.id = bid then
        ({ b with
           personalTitle := updField data.personalTitle b.personalTitle,
           personalNote := updField data.personalNote b.personalNote,
           categoryId := updField data.categoryId b.categoryId,
           isPublic := data.isPublic.getD b.isPublic } : Bookmark)
       else b).id = b.id := by
    intro b
    by_cases hb : b.id = bid <;> simp [hb]
  refine ⟨?_, h2, h3, h4, h5, ?_, h7, h8, h9, h10⟩
  · exact h1.map _ (fun a b hab => by rw [hid, hid]; exact hab)
  · intro x hx
    rw [List.mem_map] at hx
    obtain ⟨a, ha, rfl⟩ := hx
    rw [hid a]
    exact h6 a ha

theorem bookmarkTagDeleteMany_WF {bid : Nat} {db : DB} (hwf : db.WF) :
    (bookmarkTagDeleteMany bid db).WF := by
  obtain ⟨h1, h2, h3, h4, h5, h6, h7, h8, h9, h10⟩ := hwf
  exact ⟨h1, h2, h3, h4,
    List.Pairwise.sublist (List.filter_sublist _) h5, h6, h7, h8, h9,
    fun bt hbt => h10 bt (List.mem_of_mem_filter hbt)⟩

theorem bookmarkTagDeleteMany_not_mem {bid : Nat} {db : DB} :
    ∀ bt ∈ (bookmarkTagDeleteMany bid db).bookmarkTags, bt.bookmarkId ≠ bid := by
  intro bt hbt
  have := List.of_mem_filter hbt
  rw [decide_eq_true_iff] at this
  exact this

/-- C3: when an `updateBookmark` request explicitly carries a `tags` list
and the call succeeds, the junction rows attached to that bookmark
afterwards are exactly the rows for the tags resolved from the provided
list — a previously attached tag not in the new list is no longer attached;
when the request omits `tags`, the junction table is untouched. -/
theorem claim3_tag_replacement (db : DB) (u bid : Nat) (data : UpdateBookmarkRequest)
    (hwf : db.WF) :
    (∀ (names : List String) (resp : Bookmark) (db' : DB),
      data.tags = some names →
      updateBookmark u bid data db = (.ok resp, db') →
      ∀ tid, (∃ bt ∈ db'.bookmarkTags, bt.bookmarkId = bid ∧ bt.tagId = tid) ↔
        (∃ t ∈ db'.tags, t.id = tid ∧ t.userId = u ∧ t.name ∈ names)) ∧
    (data.tags = none →
      ((updateBookmark u bid data db).2).bookmarkTags = db.bookmarkTags) := by
  constructor
  · intro names resp db' htags hupd
    unfold updateBookmark at hupd
    cases hfb : bookmarkFindFirst u bid db with
    | none =>
      rw [hfb] at hupd
      exact absurd (congrArg Prod.fst hupd) (by simp)
    | some b0 =>
      rw [hfb] at hupd
      dsimp only at hupd
      cases hur : bookmarkUpdateRow bid data db with
      | error e =>
        rw [hur] at hupd
        exact absurd (congrArg Prod.fst hupd) (by simp)
      | ok db1 =>
        rw [hur] at hupd
        dsimp only at hupd
        rw [htags] at hupd
        dsimp only at hupd
        have hwf1 : db1.WF := bookmarkUpdateRow_WF hwf hur
        have hwf1' : (bookmarkTagDeleteMany bid db1).WF := bookmarkTagDeleteMany_WF hwf1
        have hb0 := List.mem_of_find?_eq_some hfb
        have hb0p := List.find?_some hfb
        rw [decide_eq_true_iff] at hb0p
        have hbidlt : bid < db.nextId := hb0p.1 ▸ hwf.2.2.2.2.2.1 b0 hb0
        have hnext1 : db1.nextId = db.nextId := by
          rw [bookmarkUpdateRow_ok_shape hur]
        have hbidlt' : bid < (bookmarkTagDeleteMany bid db1).nextId := by
          show bid < db1.nextId
          rw [hnext1]
          exact hbidlt
        by_cases hlen : names.length > 0
        · rw [if_pos hlen] at hupd
          cases hp : attachTagsLoop u bid names (bookmarkTagDeleteMany bid db1) with
          | mk r db2 =>
            rw [hp] at hupd
            cases r with
            | error e => exact absurd (congrArg Prod.fst hupd) (by simp)
            | ok u0 =>
              dsimp only at hupd
              cases hrf : db2.bookmarks.find? (fun b => decide (b.id = bid)) with
              | none =>
                rw [hrf] at hupd
                exact absurd (congrArg Prod.fst hupd) (by simp)
              | some bmk =>
                rw [hrf] at hupd
                have hdb' : db2 = db' := congrArg Prod.snd hupd
                subst hdb'
                obtain ⟨hwf', -, -, -, -, hiff⟩ :=
                  attachTagsLoop_ok u bid names _ db2 hwf1' hbidlt' hp
                intro tid
                constructor
                · rintro ⟨bt, hbt, hbb, hbtid⟩
                  rcases (hiff bt).mp hbt with hold | ⟨-, t, ht, htid, htu, htn⟩
                  · exact absurd hbb (bookmarkTagDeleteMany_not_mem bt hold)
                  · exact ⟨t, ht, htid.trans hbtid, htu, htn⟩
                · rintro ⟨t, ht, htid, htu, htn⟩
                  refine ⟨⟨bid, tid⟩, ?_, rfl, rfl⟩
                  exact (hiff ⟨bid, tid⟩).mpr (Or.inr ⟨rfl, t, ht, htid, htu, htn⟩)
        · rw [if_neg hlen] at hupd
          have hnames : names = [] := List.length_eq_zero.mp (Nat.eq_zero_of_not_pos hlen)
          subst hnames
          dsimp only at hupd
          cases hrf : (bookmarkTagDeleteMany bid db1).bookmarks.find?
              (fun b => decide (b.id = bid)) with
          | none =>
            rw [hrf] at hupd
            exact absurd (congrArg Prod.fst hupd) (by simp)
          | some bmk =>
            rw [hrf] at hupd
            have hdb' : bookmarkTagDeleteMany bid db1 = db' := congrArg Prod.snd hupd
            subst hdb'
            intro tid
            constructor
            · rintro ⟨bt, hbt, hbb, -⟩
              exact absurd hbb (bookmarkTagDeleteMany_not_mem bt hbt)
            · rintro ⟨t, -, -, -, htn⟩
              exact absurd htn (List.not_mem_nil _)
  · intro htags
    unfold updateBookmark
    cases hfb : bookmarkFindFirst u bid db with
    | none => rfl
    | some b0 =>
      dsimp only
      cases hur : bookmarkUpdateRow bid data db with
      | error e => rfl
      | ok db1 =>
        dsimp only
        rw [htags]
        dsimp only
        have hbt1 : db1.bookmarkTags = db.bookmarkTags := by
          rw [bookmarkUpdateRow_ok_shape hur]
        cases hrf : db1.bookmarks.find? (fun b => decide (b.id = bid)) with
        | none => exact hbt1
        | some bmk => exact hbt1

/-- Witness for C3: updating bookmark 10 — previously tagged `{a, b}` —
with `tags = ["a"]` leaves tag 2 (`b`) detached (by the theorem, since `b`
is not in the new list), and the junction table afterwards holds exactly
the row for tag 1 (`a`). -/
theorem claim3_witness :
    ((∃ bt ∈ ((updateBookmark 1 10 { tags := some ["a"] } sampleDb3).2).bookmarkTags,
        bt.bookmarkId = 10 ∧ bt.tagId = 2) ↔
      (∃ t ∈ ((updateBookmark 1 10 { tags := some ["a"] } sampleDb3).2).tags,
        t.id = 2 ∧ t.userId = 1 ∧ t.name ∈ ["a"])) ∧
    ((updateBookmark 1 10 { tags := some ["a"] } sampleDb3).2).bookmarkTags = [⟨10, 1⟩] := by
  constructor
  · exact (claim3_tag_replacement sampleDb3 1 10 { tags := some ["a"] } (by decide)).1
      ["a"] _ _ rfl rfl 2
  · rfl

/-- C4: soft deletion.  Deleting a live bookmark owned by the requester
succeeds by setting `deletedAt` to the current time: the row count is
unchanged and the marked row is still in the store; afterwards
`getBookmarkById` reports `BOOKMARK_NOT_FOUND`, the default `getBookmarks`
listing omits the bookmark, and a repeated `deleteBookmark` on the same id
fails with `BOOKMARK_NOT_FOUND` instead of succeeding. -/
theorem claim4_soft_delete (db : DB) (u bid : Nat) (b : Bookmark) (hwf : db.WF)
    (hb : b ∈ db.bookmarks) (hbid : b.id = bid) (hbu : b.userId = u)
    (hbdel : b.deletedAt = none) :
    (deleteBookmark u bid db).1 = .ok () ∧
    ((deleteBookmark u bid db).2).bookmarks.length = db.bookmarks.length ∧
    { b with deletedAt := some db.now } ∈ ((deleteBookmark u bid db).2).bookmarks ∧
    getBookmarkById u bid ((deleteBookmark u bid db).2) = .error bookmarkNotFoundError ∧
    (∀ r ∈ (getBookmarks u {} ((deleteBookmark u bid db).2)).bookmarks, r.id ≠ bid) ∧
    (deleteBookmark u bid ((deleteBookmark u bid db).2)).1 = .error bookmarkNotFoundError := by
  have hsome : (bookmarkFindFirst u bid db).isSome := by
    rw [bookmarkFindFirst, List.find?_isSome]
    exact ⟨b, hb, by simp [hbid, hbu, hbdel]⟩
  obtain ⟨b0, hf⟩ := Option.isSome_iff_exists.mp hsome
  have hdel : deleteBookmark u bid db = (.ok (),
      { db with bookmarks := db.bookmarks.map (fun x =>
          if x.id = bid then { x with deletedAt := some db.now } else x) }) := by
    unfold deleteBookmark
    rw [hf]
  rw [hdel]
  have hnone : ∀ x ∈ db.bookmarks.map (fun x =>
      if x.id = bid then { x with deletedAt := some db.now } else x),
      ¬ (x.id = bid ∧ x.userId = u ∧ x.deletedAt = none) := by
    intro x hx
    rw [List.mem_map] at hx
    obtain ⟨a, ha, rfl⟩ := hx
    by_cases hc : a.id = bid
    · rw [if_pos hc]
      rintro ⟨-, -, hcon⟩
      exact Option.noConfusion hcon
    · rw [if_neg hc]
      rintro ⟨hcon, -, -⟩
      exact hc hcon
  have hfind2 : bookmarkFindFirst u bid
      { db with bookmarks := db.bookmarks.map (fun x =>
          if x.id = bid then { x with deletedAt := some db.now } else x) } = none := by
    rw [bookmarkFindFirst, List.find?_eq_none]
    intro x hx
    simpa using hnone x hx
  refine ⟨rfl, by simp, ?_, ?_, ?_, ?_⟩
  · rw [List.mem_map]
    exact ⟨b, hb, by rw [if_pos hbid]⟩
  · rw [getBookmarkById, hfind2]
  · intro r hr
    have hr1 : r ∈ (({ db with bookmarks := db.bookmarks.map (fun x =>
        if x.id = bid then { x with deletedAt := some db.now } else x) } : DB).bookmarks.filter
        (bookmarkMatches { db with bookmarks := db.bookmarks.map (fun x =>
          if x.id = bid then { x with deletedAt := some db.now } else x) } u {})) := by
      have h1 := List.take_subset _ _ hr
      have h2 := List.drop_subset _ _ h1
      exact List.mem_mergeSort.mp h2
    have hrdel : r.deletedAt = none := by
      have hp := List.of_mem_filter hr1
      simp only [bookmarkMatches, Bool.and_eq_true, decide_eq_true_iff] at hp
      exact hp.1.1.1.2
    have hrmem := List.mem_of_mem_filter hr1
    have huser : r.userId = u := by
      have hp := List.of_mem_filter hr1
      simp only [bookmarkMatches, Bool.and_eq_true, decide_eq_true_iff] at hp
      exact hp.1.1.1.1
    intro hrid
    exact absurd ⟨hrid, huser, hrdel⟩ (hnone r hrmem)
  · unfold deleteBookmark
    rw [hfind2]

/-- Witness for C4: deleting bookmark 10 of user 1 in the sample store. -/
theorem claim4_witness :
    (deleteBookmark 1 10 sampleDb1).1 = .ok () ∧
    ((deleteBookmark 1 10 sampleDb1).2).bookmarks.length = sampleDb1.bookmarks.length ∧
    getBookmarkById 1 10 ((deleteBookmark 1 10 sampleDb1).2) = .error bookmarkNotFoundError ∧
    (deleteBookmark 1 10 ((deleteBookmark 1 10 sampleDb1).2)).1 = .error bookmarkNotFoundError := by
  obtain ⟨h1, h2, -, h4, -, h6⟩ := claim4_soft_delete sampleDb1 1 10
    { id := 10, personalTitle := none, personalNote := none, isPublic := false,
      userId := 1, websiteMetadataId := 5, categoryId := none, createdAt := 0,
      deletedAt := none }
    (by decide) (by decide) rfl rfl rfl
  exact ⟨h1, h2, h4, h6⟩

/-- C5, counterexample: user 2 creates a bookmark referencing category 0,
which belongs to user 1; the call succeeds and the foreign category is
attached to the bookmark — `createBookmark` never verifies category
ownership (only the foreign-key existence check applies), contradicting
the claimed invalid-reference rejection. -/
theorem claim5_counterexample :
    (createBookmark 2 { url := "https://example.com", categoryId := some 0 }
        sampleDbC5).1 =
      .ok { id := 2, personalTitle := none, personalNote := none, isPublic := false,
            userId := 2, websiteMetadataId := 1, categoryId := some 0, createdAt := 0,
            deletedAt := none } ∧
    sampleDbC5.categories.map (fun c => c.userId) = [1] := ⟨rfl, rfl⟩

/-- C5, amended: `createBookmark` (and the `updateBookmark` field write)
assigns a supplied `categoryId` without any service-level ownership check —
an existing category of any other user is accepted and attached; only
`updateBookmarkCategory` verifies that the category exists and belongs to
the requester, rejecting with `INVALID_CATEGORY` otherwise. -/
theorem claim5_amended (db : DB) (hwf : db.WF) :
    (∀ (uB : Nat) (cat : Category) (data : CreateBookmarkRequest),
      cat ∈ db.categories → data.categoryId = some cat.id → data.tags = none →
      ∃ b db', createBookmark uB data db = (.ok b, db') ∧
        b.categoryId = some cat.id ∧ b.userId = uB) ∧
    (∀ (u bid c : Nat),
      (∃ b ∈ db.bookmarks, b.id = bid ∧ b.userId = u ∧ b.deletedAt = none) →
      (∀ cat ∈ db.categories, ¬ (cat.id = c ∧ cat.userId = u)) →
      updateBookmarkCategory u bid (some c) db = (.error invalidCategoryError, db)) ∧
    (∀ (u bid c : Nat),
      (∃ b ∈ db.bookmarks, b.id = bid ∧ b.userId = u ∧ b.deletedAt = none) →
      (∃ cat ∈ db.categories, cat.id = c ∧ cat.userId = u) →
      (updateBookmarkCategory u bid (some c) db).1 = .ok ()) := by
  refine ⟨?_, ?_, ?_⟩
  · -- createBookmark: the only check on categoryId is the foreign key.
    intro uB cat data hcat hdc htags
    obtain ⟨m, db1, hm, hshape⟩ := getOrCreateWebsiteMetadata_shape data.url db
    have hwf1 : db1.WF := by
      rcases hshape with rfl | hc
      · exact hwf
      · exact websiteMetadataCreate_WF hwf hc
    have hcats1 : db1.categories = db.categories := by
      rcases hshape with rfl | hc
      · rfl
      · rw [(websiteMetadataCreate_ok hc).2.1]
    have hfk : (db1.categories.any fun x => decide (x.id = cat.id)) = true := by
      rw [List.any_eq_true, hcats1]
      exact ⟨cat, hcat, by simp⟩
    have hfkx : ∃ b db2, bookmarkCreate uB m.id data db1 = .ok (b, db2) := by
      unfold bookmarkCreate
      rw [hdc]
      dsimp only
      rw [hfk]
      exact ⟨_, _, rfl⟩
    obtain ⟨b, db2, hbc⟩ := hfkx
    obtain ⟨hbeq, hdb2⟩ := bookmarkCreate_ok hbc
    have hbid : b.id = db1.nextId := by rw [hbeq]
    have hrefetch : db2.bookmarks.find? (fun x => decide (x.id = b.id)) = some b := by
      rw [hdb2]
      dsimp only
      rw [List.find?_append]
      have hold : db1.bookmarks.find? (fun x => decide (x.id = b.id)) = none := by
        rw [List.find?_eq_none]
        intro x hx
        simp only [decide_eq_true_iff]
        rw [hbid]
        exact Nat.ne_of_lt (hwf1.2.2.2.2.2.1 x hx)
      rw [hold, Option.none_or, ← hbeq]
      simp
    refine ⟨b, db2, ?_, by rw [hbeq]; exact hdc, by rw [hbeq]⟩
    unfold createBookmark
    rw [hm]
    dsimp only
    rw [hbc]
    dsimp only
    rw [htags]
    dsimp only
    rw [hrefetch]
  · -- updateBookmarkCategory rejects a category not owned by the requester.
    intro u bid c hbk hforeign
    obtain ⟨b, hb, hbid, hbu, hbdel⟩ := hbk
    have hsome : (bookmarkFindFirst u bid db).isSome := by
      rw [bookmarkFindFirst, List.find?_isSome]
      exact ⟨b, hb, by simp [hbid, hbu, hbdel]⟩
    obtain ⟨b0, hf⟩ := Option.isSome_iff_exists.mp hsome
    have hcf : db.categories.find? (fun cat => decide (cat.id = c ∧ cat.userId = u)) = none := by
      rw [List.find?_eq_none]
      intro cat hcat
      simpa using hforeign cat hcat
    unfold updateBookmarkCategory
    rw [hf]
    dsimp only
    rw [hcf]
  · -- updateBookmarkCategory accepts an owned category.
    intro u bid c hbk howned
    obtain ⟨b, hb, hbid, hbu, hbdel⟩ := hbk
    have hsome : (bookmarkFindFirst u bid db).isSome := by
      rw [bookmarkFindFirst, List.find?_isSome]
      exact ⟨b, hb, by simp [hbid, hbu, hbdel]⟩
    obtain ⟨b0, hf⟩ := Option.isSome_iff_exists.mp hsome
    obtain ⟨cat, hcat, hcid, hcu⟩ := howned
    have hcsome : (db.categories.find? (fun x => decide (x.id = c ∧ x.userId = u))).isSome := by
      rw [List.find?_isSome]
      exact ⟨cat, hcat, by simp [hcid, hcu]⟩
    obtain ⟨c0, hcf⟩ := Option.isSome_iff_exists.mp hcsome
    unfold updateBookmarkCategory
    rw [hf]
    dsimp only
    rw [hcf]

/-- Witness for C5's amended statement: the concrete foreign-category
attachment of the counterexample through the general theorem, plus the
`updateBookmarkCategory` rejection on the same store extended with a
bookmark of user 2. -/
theorem claim5_witness :
    (∃ b db', createBookmark 2 { url := "https://example.com", categoryId := some 0 }
        sampleDbC5 = (.ok b, db') ∧ b.categoryId = some 0 ∧ b.userId = 2) ∧
    updateBookmarkCategory 2 2 (some 0) sampleDbC5b =
      (.error invalidCategoryError, sampleDbC5b) := by
  constructor
  · exact (claim5_amended sampleDbC5 (by decide)).1 2 ⟨0, "work", none, none, 1⟩
      { url := "https://example.com", categoryId := some 0 } (by decide) rfl rfl
  · refine (claim5_amended sampleDbC5b (by decide)).2.1 2 2 0 ?_ ?_
    · exact ⟨{ id := 2, personalTitle := none, personalNote := none, isPublic := false,
               userId := 2, websiteMetadataId := 1, categoryId := some 0, createdAt := 0,
               deletedAt := none }, by decide, rfl, rfl, rfl⟩
    · intro cat hcat
      have : cat = (⟨0, "work", none, none, 1⟩ : Category) := by
        simpa [sampleDbC5b] using hcat
      subst this
      rintro ⟨-, hcon⟩
      exact absurd hcon (by decide)

/-! ## Lemmas about `tagCreateMany` and `findOrCreateTags` -/

theorem tagCreateMany_ok_shape {u : Nat} {names : List String} {db db' : DB}
    (h : tagCreateMany u names db = .ok db') :
    names.Nodup ∧ (∀ n ∈ names, tagFindUnique u n db = none) ∧
    db' = { db with tags := db.tags ++ tagsFromNames u names db.nextId,
                    nextId := db.nextId + names.length } := by
  unfold tagCreateMany at h
  split at h
  · next hc =>
    injection h with h
    exact ⟨hc.1, hc.2, h.symm⟩
  · exact absurd h (by simp)

theorem tagsFromNames_mem (u : Nat) :
    ∀ (names : List String) (i : Nat) (t : Tag), t ∈ tagsFromNames u names i →
      t.userId = u ∧ t.name ∈ names ∧ i ≤ t.id ∧ t.id < i + names.length
  | [], i, t, h => absurd h (List.not_mem_nil t)
  | n :: rest, i, t, h => by
    rcases List.mem_cons.mp h with rfl | hrest
    · exact ⟨rfl, List.mem_cons_self _ _, Nat.le_refl _, by simp⟩
    · obtain ⟨h1, h2, h3, h4⟩ := tagsFromNames_mem u rest (i + 1) t hrest
      refine ⟨h1, List.mem_cons_of_mem _ h2, by omega, ?_⟩
      simp only [List.length_cons]
      omega

theorem tagsFromNames_cover (u : Nat) :
    ∀ (names : List String) (i : Nat) (n : String), n ∈ names →
      ∃ t ∈ tagsFromNames u names i, t.userId = u ∧ t.name = n
  | [], i, n, h => absurd h (List.not_mem_nil n)
  | m :: rest, i, n, h => by
    rcases List.mem_cons.mp h with rfl | hrest
    · exact ⟨⟨i, n, u⟩, List.mem_cons_self _ _, rfl, rfl⟩
    · obtain ⟨t, ht, h1, h2⟩ := tagsFromNames_cover u rest (i + 1) n hrest
      exact ⟨t, List.mem_cons_of_mem _ ht, h1, h2⟩

theorem tagsFromNames_pairwise (u : Nat) :
    ∀ (names : List String) (i : Nat), names.Nodup →
      (tagsFromNames u names i).Pairwise
        (fun a b => a.id ≠ b.id ∧ ¬ (a.userId = b.userId ∧ a.name = b.name))
  | [], i, h => List.Pairwise.nil
  | n :: rest, i, h => by
    obtain ⟨hnotin, hrest⟩ := List.nodup_cons.mp h
    rw [tagsFromNames, List.pairwise_cons]
    refine ⟨?_, tagsFromNames_pairwise u rest (i + 1) hrest⟩
    intro b hb
    obtain ⟨hbu, hbn, hble, -⟩ := tagsFromNames_mem u rest (i + 1) b hb
    constructor
    · show i ≠ b.id
      omega
    · rintro ⟨-, hname⟩
      refine hnotin ?_
      show n ∈ rest
      rw [show n = b.name from hname]
      exact hbn

theorem tagCreateMany_WF {u : Nat} {names : List String} {db db' : DB}
    (hwf : db.WF) (h : tagCreateMany u names db = .ok db') : db'.WF := by
  obtain ⟨hnd, hfresh, hdb⟩ := tagCreateMany_ok_shape h
  obtain ⟨h1, h2, h3, h4, h5, h6, h7, h8, h9, h10⟩ := hwf
  subst hdb
  have hlen : db.nextId ≤ db.nextId + names.length := Nat.le_add_right _ _
  refine ⟨h1, ?_, h3, h4, h5,
    fun b hb => Nat.lt_of_lt_of_le (h6 b hb) hlen, ?_,
    fun c hc => Nat.lt_of_lt_of_le (h8 c hc) hlen,
    fun m hm => Nat.lt_of_lt_of_le (h9 m hm) hlen,
    fun bt hbt => ⟨Nat.lt_of_lt_of_le (h10 bt hbt).1 hlen,
      Nat.lt_of_lt_of_le (h10 bt hbt).2 hlen⟩⟩
  · rw [List.pairwise_append]
    refine ⟨h2, tagsFromNames_pairwise u names db.nextId hnd, ?_⟩
    intro a ha b hb
    obtain ⟨hbu, hbn, hble, -⟩ := tagsFromNames_mem u names db.nextId b hb
    constructor
    · have := h7 a ha
      omega
    · rintro ⟨huab, hnab⟩
      refine tagFindUnique_none (hfresh b.name hbn) a ha ⟨?_, hnab⟩
      rw [huab, hbu]
  · intro x hx
    rcases List.mem_append.mp hx with hold | hnew
    · exact Nat.lt_of_lt_of_le (h7 x hold) hlen
    · exact (tagsFromNames_mem u names db.nextId x hnew).2.2.2

/-- Any selection of a pairwise key-distinct tag table by one `(userId,
name)` key has at most one row. -/
theorem tags_filter_key_le_one {l : List Tag}
    (hpw : l.Pairwise (fun a b => a.id ≠ b.id ∧ ¬ (a.userId = b.userId ∧ a.name = b.name)))
    (u' : Nat) (n : String) :
    (l.filter (fun t => decide (t.userId = u' ∧ t.name = n))).length ≤ 1 := by
  cases hf : l.filter (fun t => decide (t.userId = u' ∧ t.name = n)) with
  | nil => simp
  | cons a tail =>
    cases tail with
    | nil => simp
    | cons b tail2 =>
      exfalso
      have hpwf := List.Pairwise.sublist
        (@List.filter_sublist Tag (fun t => decide (t.userId = u' ∧ t.name = n)) l) hpw
      rw [hf] at hpwf
      have hR := (List.pairwise_cons.mp hpwf).1 b (List.mem_cons_self _ _)
      have hamem : a ∈ l.filter (fun t => decide (t.userId = u' ∧ t.name = n)) := by
        rw [hf]
        exact List.mem_cons_self _ _
      have hbmem : b ∈ l.filter (fun t => decide (t.userId = u' ∧ t.name = n)) := by
        rw [hf]
        exact List.mem_cons_of_mem _ (List.mem_cons_self _ _)
      have hap := List.of_mem_filter hamem
      have hbp := List.of_mem_filter hbmem
      rw [decide_eq_true_iff] at hap hbp
      exact hR.2 ⟨hap.1.trans hbp.1.symm, hap.2.trans hbp.2.symm⟩

/-- The two possible final stores of `findOrCreateTags`: unchanged, or the
result of the `createMany`. -/
theorem findOrCreateTags_snd (u : Nat) (names : List String) (db : DB) :
    ((findOrCreateTags u names db).2) = db ∨
    tagCreateMany u (names.filter (fun n => decide (n ∉
      ((db.tags.filter (fun t => decide (t.userId = u ∧ t.name ∈ names))).map (·.name)))))
      db = .ok ((findOrCreateTags u names db).2) := by
  unfold findOrCreateTags
  dsimp only
  split
  · exact Or.inl rfl
  · next db1 heq =>
    split at heq
    · exact Or.inr heq
    · injection heq with heq
      exact Or.inl heq.symm

theorem tagCreateMany_dup (u : Nat) (names : List String) (db : DB)
    (hdup : ¬ names.Nodup) :
    tagCreateMany u names db = .error (.uniqueViolation "tags") := by
  unfold tagCreateMany
  rw [if_neg (fun hc => hdup hc.1)]

/-- A second `findOrCreateTags` with the same arguments changes nothing and
returns the same ids. -/
theorem findOrCreateTags_idem {u : Nat} {names : List String} {db : DB}
    {ids : List Nat} {db' : DB}
    (h : findOrCreateTags u names db = (.ok ids, db')) :
    findOrCreateTags u names db' = (.ok ids, db') := by
  unfold findOrCreateTags at h
  dsimp only at h
  split at h
  · exact absurd (congrArg Prod.fst h) (by simp)
  · next db1 heq =>
    have hids : ids = (db1.tags.filter
        (fun t => decide (t.userId = u ∧ t.name ∈ names))).map (fun t => t.id) := by
      have := congrArg Prod.fst h
      simpa using this.symm
    have hdb' : db' = db1 := (congrArg Prod.snd h).symm
    subst hdb'
    have hcover : ∀ n ∈ names, ∃ t ∈ db'.tags, t.userId = u ∧ t.name = n := by
      intro n hn
      split at heq
      · -- createMany ran and succeeded
        obtain ⟨-, -, hdb1⟩ := tagCreateMany_ok_shape heq
        by_cases hex : n ∈ (db.tags.filter
            (fun t => decide (t.userId = u ∧ t.name ∈ names))).map (fun t => t.name)
        · rw [List.mem_map] at hex
          obtain ⟨t, ht, htn⟩ := hex
          have htp := List.of_mem_filter ht
          rw [decide_eq_true_iff] at htp
          refine ⟨t, ?_, htp.1, htn⟩
          rw [hdb1]
          exact List.mem_append_left _ (List.mem_of_mem_filter ht)
        · have hnnew : n ∈ names.filter (fun x => decide (x ∉ (db.tags.filter
              (fun t => decide (t.userId = u ∧ t.name ∈ names))).map (fun t => t.name))) := by
            rw [List.mem_filter]
            exact ⟨hn, by simpa using hex⟩
          obtain ⟨t, ht, htu, htn⟩ := tagsFromNames_cover u _ db.nextId n hnnew
          refine ⟨t, ?_, htu, htn⟩
          rw [hdb1]
          exact List.mem_append_right _ ht
      · -- nothing to create: every name already has a row
        next hlen =>
        injection heq with heq
        subst heq
        have hempty : names.filter (fun x => decide (x ∉ (db.tags.filter
            (fun t => decide (t.userId = u ∧ t.name ∈ names))).map (fun t => t.name))) = [] := by
          cases hf : names.filter (fun x => decide (x ∉ (db.tags.filter
              (fun t => decide (t.userId = u ∧ t.name ∈ names))).map (fun t => t.name))) with
          | nil => rfl
          | cons a l =>
            exfalso
            refine hlen ?_
            rw [hf]
            exact Nat.succ_pos _
        have hnin : n ∈ (db.tags.filter
            (fun t => decide (t.userId = u ∧ t.name ∈ names))).map (fun t => t.name) := by
          by_contra hcon
          have : n ∈ ([] : List String) := by
            rw [← hempty, List.mem_filter]
            exact ⟨hn, by simpa using hcon⟩
          exact absurd this (List.not_mem_nil n)
        rw [List.mem_map] at hnin
        obtain ⟨t, ht, htn⟩ := hnin
        have htp := List.of_mem_filter ht
        rw [decide_eq_true_iff] at htp
        exact ⟨t, List.mem_of_mem_filter ht, htp.1, htn⟩
    have hnew' : names.filter (fun x => decide (x ∉ (db'.tags.filter
        (fun t => decide (t.userId = u ∧ t.name ∈ names))).map (fun t => t.name))) = [] := by
      rw [List.filter_eq_nil_iff]
      intro n hn
      obtain ⟨t, ht, htu, htn⟩ := hcover n hn
      simp only [decide_eq_true_iff, Decidable.not_not]
      rw [List.mem_map]
      refine ⟨t, ?_, htn⟩
      rw [List.mem_filter]
      refine ⟨ht, ?_⟩
      rw [decide_eq_true_iff]
      exact ⟨htu, htn ▸ hn⟩
    unfold findOrCreateTags
    dsimp only
    rw [hnew']
    simp only [List.length_nil, gt_iff_lt, lt_self_iff_false, if_false]
    rw [← hids]

/-- `findOrCreateTags` on a list repeating a name with no existing row for
it: the repeated name survives into `createMany`, whose batch violates the
`(userId, name)` unique index, so the whole call fails and the store is
unchanged. -/
theorem findOrCreateTags_dup_fresh {u : Nat} {n : String} {db : DB}
    (hfresh : ∀ t ∈ db.tags, ¬ (t.userId = u ∧ t.name = n)) :
    findOrCreateTags u [n, n] db = (.error (.uniqueViolation "tags"), db) := by
  have hfil : db.tags.filter
      (fun t => decide (t.userId = u ∧ t.name ∈ ([n, n] : List String))) = [] := by
    rw [List.filter_eq_nil_iff]
    intro t ht
    simp only [decide_eq_true_iff, List.mem_cons, List.not_mem_nil, or_false]
    rintro ⟨hu, hm | hm⟩ <;> exact hfresh t ht ⟨hu, hm⟩
  have hnew : ([n, n] : List String).filter (fun x => decide (x ∉ (db.tags.filter
      (fun t => decide (t.userId = u ∧ t.name ∈ ([n, n] : List String)))).map
        (fun t => t.name))) = [n, n] := by
    rw [hfil]
    simp
  unfold findOrCreateTags
  dsimp only
  rw [hnew, if_pos (by simp), tagCreateMany_dup u [n, n] db (by simp)]

/-- C6, counterexample: resolving the list `["a", "a"]` for user 1 on an
empty store does not complete successfully as if de-duplicated — it fails
with the `(userId, name)` unique-constraint violation, because
`findOrCreateTags` filters new names against existing rows without
de-duplicating the input before `createMany`. -/
theorem claim6_counterexample :
    findOrCreateTags 1 ["a", "a"] ({} : DB) =
      (.error (.uniqueViolation "tags"), ({} : DB)) := rfl

/-- C6, amended: no duplicate rows are ever created — after any
`findOrCreateTags` call on a well-formed store, at most one Tag row per
`(ownerId, name)` exists, and resolving the same list twice is idempotent
(the second call returns the same ids and leaves the store unchanged) —
but a single call whose list repeats a name does not behave as if the list
were de-duplicated: `findOrCreateTags` fails with the Tag unique-constraint
violation when the repeated name has no existing row, and the inline
attachment loop of `createBookmark`/`updateBookmark` always fails on a
repeated name (BookmarkTag primary-key violation). -/
theorem claim6_amended :
    (∀ (db : DB) (u : Nat) (names : List String) (u' : Nat) (n : String), db.WF →
      ((((findOrCreateTags u names db).2).tags.filter
        (fun t => decide (t.userId = u' ∧ t.name = n))).length ≤ 1)) ∧
    (∀ (db : DB) (u : Nat) (names : List String) (ids : List Nat) (db' : DB),
      findOrCreateTags u names db = (.ok ids, db') →
      findOrCreateTags u names db' = (.ok ids, db')) ∧
    (∀ (db : DB) (u : Nat) (n : String),
      (∀ t ∈ db.tags, ¬ (t.userId = u ∧ t.name = n)) →
      findOrCreateTags u [n, n] db = (.error (.uniqueViolation "tags"), db)) ∧
    (∀ (db : DB) (u bid : Nat) (names : List String), db.WF → bid < db.nextId →
      ¬ names.Nodup → ∃ e, (attachTagsLoop u bid names db).1 = .error e) := by
  refine ⟨?_, ?_, ?_, ?_⟩
  · intro db u names u' n hwf
    rcases findOrCreateTags_snd u names db with heq | hcm
    · rw [heq]
      exact tags_filter_key_le_one hwf.2.1 u' n
    · exact tags_filter_key_le_one (tagCreateMany_WF hwf hcm).2.1 u' n
  · intro db u names ids db' h
    exact findOrCreateTags_idem h
  · intro db u n hfresh
    exact findOrCreateTags_dup_fresh hfresh
  · intro db u bid names hwf hbid hdup
    exact attachTagsLoop_err u bid names db hwf hbid (Or.inl hdup)

/-- Witness for C6's amended statement: concrete resolutions for user 1 —
`["a", "a"]` with no existing row fails; `["a"]` succeeds and repeating it
returns the same id without a new row; the key-count bound holds on the
result. -/
theorem claim6_witness :
    findOrCreateTags 1 ["a", "a"] ({} : DB) =
      (.error (.uniqueViolation "tags"), ({} : DB)) ∧
    findOrCreateTags 1 ["a"] ({ tags := [⟨0, "a", 1⟩], nextId := 1 } : DB) =
      (.ok [0], ({ tags := [⟨0, "a", 1⟩], nextId := 1 } : DB)) ∧
    ((((findOrCreateTags 1 ["a"] ({} : DB)).2).tags.filter
      (fun t => decide (t.userId = 1 ∧ t.name = "a"))).length ≤ 1) := by
  obtain ⟨hA, hB, hC, -⟩ := claim6_amended
  refine ⟨hC ({} : DB) 1 "a" (by intro t ht; exact absurd ht (List.not_mem_nil t)), ?_, ?_⟩
  · exact hB ({} : DB) 1 ["a"] [0] ({ tags := [⟨0, "a", 1⟩], nextId := 1 } : DB) rfl
  · exact hA ({} : DB) 1 ["a"] 1 "a" (by decide)

/-! ## Lemmas for the metadata-deduplication claim -/

/-- The bookmark row just inserted is what the re-fetch by id finds. -/
theorem bookmarkCreate_refetch {u mid : Nat} {data : CreateBookmarkRequest}
    {db1 : DB} {b0 : Bookmark} {db2 : DB} (hwf1 : db1.WF)
    (hbc : bookmarkCreate u mid data db1 = .ok (b0, db2)) :
    db2.bookmarks.find? (fun x => decide (x.id = b0.id)) = some b0 := by
  obtain ⟨hbeq, hdb2⟩ := bookmarkCreate_ok hbc
  have hbid : b0.id = db1.nextId := by rw [hbeq]
  rw [hdb2]
  dsimp only
  rw [List.find?_append]
  have h0 : db1.bookmarks.find? (fun x => decide (x.id = b0.id)) = none := by
    rw [List.find?_eq_none]
    intro x hx
    simp only [decide_eq_true_iff]
    rw [hbid]
    exact Nat.ne_of_lt (hwf1.2.2.2.2.2.1 x hx)
  rw [h0, Option.none_or, ← hbeq]
  exact List.find?_cons_of_pos _ (by simp)

/-- The tag-attachment loop keeps the store well-formed on every path. -/
theorem attachTagsLoop_WF (u bid : Nat) :
    ∀ (names : List String) (db : DB), db.WF → bid < db.nextId →
      ((attachTagsLoop u bid names db).2).WF
  | [], db, hwf, hbid => hwf
  | name :: rest, db, hwf, hbid => by
    unfold attachTagsLoop
    cases hft : tagFindUnique u name db with
    | some t =>
      dsimp only
      obtain ⟨ht, -, -⟩ := tagFindUnique_some hft
      cases hbt : bookmarkTagCreate bid t.id db with
      | error e => exact hwf
      | ok db2 =>
        have hwf2 : db2.WF := bookmarkTagCreate_WF hwf hbid (hwf.2.2.2.2.2.2.1 t ht) hbt
        have hbid2 : bid < db2.nextId := by
          rw [(bookmarkTagCreate_ok hbt).1]
          exact hbid
        exact attachTagsLoop_WF u bid rest db2 hwf2 hbid2
    | none =>
      dsimp only
      cases hct : tagCreate u name db with
      | error e => exact hwf
      | ok pair =>
        obtain ⟨t, db1⟩ := pair
        obtain ⟨hteq, hdb1, -⟩ := tagCreate_ok hct
        have hwf1 : db1.WF := tagCreate_WF hwf hct
        have htid1 : t.id < db1.nextId := by
          rw [hteq, hdb1]
          exact Nat.lt_succ_self _
        have hbid1 : bid < db1.nextId := by
          rw [hdb1]
          exact Nat.lt_succ_of_lt hbid
        dsimp only
        cases hbt : bookmarkTagCreate bid t.id db1 with
        | error e => exact hwf1
        | ok db2 =>
          have hwf2 : db2.WF := bookmarkTagCreate_WF hwf1 hbid1 htid1 hbt
          have hbid2 : bid < db2.nextId := by
            rw [(bookmarkTagCreate_ok hbt).1]
            exact hbid1
          exact attachTagsLoop_WF u bid rest db2 hwf2 hbid2

/-- `createBookmark` keeps the store well-formed on every path. -/
theorem createBookmark_WF (db : DB) (u : Nat) (data : CreateBookmarkRequest)
    (hwf : db.WF) : ((createBookmark u data db).2).WF := by
  obtain ⟨m, db1, hm, hshape⟩ := getOrCreateWebsiteMetadata_shape data.url db
  have hwf1 : db1.WF := by
    rcases hshape with rfl | hc
    · exact hwf
    · exact websiteMetadataCreate_WF hwf hc
  unfold createBookmark
  rw [hm]
  dsimp only
  cases hbc : bookmarkCreate u m.id data db1 with
  | error e => exact hwf1
  | ok pair =>
    obtain ⟨b0, db2⟩ := pair
    obtain ⟨hbeq, hdb2⟩ := bookmarkCreate_ok hbc
    have hwf2 : db2.WF := bookmarkCreate_WF hwf1 hbc
    have hbid2 : b0.id < db2.nextId := by
      rw [hbeq, hdb2]
      exact Nat.lt_succ_self _
    dsimp only
    cases htag : data.tags with
    | none =>
      dsimp only
      cases hrf : db2.bookmarks.find? (fun b => decide (b.id = b0.id)) with
      | none => exact hwf2
      | some c => exact hwf2
    | some tags =>
      dsimp only
      by_cases hlen : tags.length > 0
      · rw [if_pos hlen]
        have hwf3 := attachTagsLoop_WF u b0.id tags db2 hwf2 hbid2
        cases hp : attachTagsLoop u b0.id tags db2 with
        | mk r db3 =>
          rw [hp] at hwf3
          cases r with
          | error e => exact hwf3
          | ok u0 =>
            dsimp only
            cases hrf : db3.bookmarks.find? (fun b => decide (b.id = b0.id)) with
            | none => exact hwf3
            | some c => exact hwf3
      · rw [if_neg hlen]
        dsimp only
        cases hrf : db2.bookmarks.find? (fun b => decide (b.id = b0.id)) with
        | none => exact hwf2
        | some c => exact hwf2

/-- The metadata-related effect of `createBookmark`, on every path: the final
store of the call holds exactly the metadata rows left by the
`getOrCreateWebsiteMetadata` step, and a successfully returned bookmark
references the metadata row that step produced. -/
theorem createBookmark_meta_facts (db : DB) (u : Nat) (data : CreateBookmarkRequest)
    (hwf : db.WF) :
    ∃ m db1, getOrCreateWebsiteMetadata data.url db = .ok (m, db1) ∧
      ((createBookmark u data db).2).metadatas = db1.metadatas ∧
      (∀ b, (createBookmark u data db).1 = .ok b → b.websiteMetadataId = m.id) := by
  obtain ⟨m, db1, hm, hshape⟩ := getOrCreateWebsiteMetadata_shape data.url db
  have hwf1 : db1.WF := by
    rcases hshape with rfl | hc
    · exact hwf
    · exact websiteMetadataCreate_WF hwf hc
  refine ⟨m, db1, hm, ?_⟩
  unfold createBookmark
  rw [hm]
  dsimp only
  cases hbc : bookmarkCreate u m.id data db1 with
  | error e =>
    dsimp only
    exact ⟨rfl, fun b hb => nomatch hb⟩
  | ok pair =>
    obtain ⟨b0, db2⟩ := pair
    obtain ⟨hbeq, hdb2⟩ := bookmarkCreate_ok hbc
    have hmeta2 : db2.metadatas = db1.metadatas := by rw [hdb2]
    have hwid : b0.websiteMetadataId = m.id := by rw [hbeq]
    have hrefetch := bookmarkCreate_refetch hwf1 hbc
    dsimp only
    cases htag : data.tags with
    | none =>
      dsimp only
      rw [hrefetch]
      dsimp only
      exact ⟨hmeta2, fun b hb => by injection hb with hb; rw [← hb]; exact hwid⟩
    | some tags =>
      dsimp only
      by_cases hlen : tags.length > 0
      · rw [if_pos hlen]
        have hframe := attachTagsLoop_frame u b0.id tags db2
        cases hp : attachTagsLoop u b0.id tags db2 with
        | mk r db3 =>
          rw [hp] at hframe
          have hmeta3 : db3.metadatas = db1.metadatas := hframe.1.trans hmeta2
          have hbooks3 : db3.bookmarks = db2.bookmarks := hframe.2.1
          cases r with
          | error e =>
            dsimp only
            exact ⟨hmeta3, fun b hb => nomatch hb⟩
          | ok u0 =>
            dsimp only
            rw [hbooks3, hrefetch]
            dsimp only
            exact ⟨hmeta3, fun b hb => by injection hb with hb; rw [← hb]; exact hwid⟩
      · rw [if_neg hlen]
        dsimp only
        rw [hrefetch]
        dsimp only
        exact ⟨hmeta2, fun b hb => by injection hb with hb; rw [← hb]; exact hwid⟩

/-- C7: metadata deduplication.  `getOrCreateWebsiteMetadata` is idempotent —
a call repeated on the store it returned yields the same record and creates
no new row; a first-time call for a URL with no metadata row creates the row
with `title`, `description`, `favicon` and `image` all null, leaving exactly
one row for that URL; and two `createBookmark` calls with the same URL — by
the same or different users — leave exactly one WebsiteMetadata row for that
URL, and whenever both calls return bookmarks the two bookmarks reference
the same metadata row. -/
theorem claim7_metadata_dedup :
    (∀ (url : String) (db : DB) (m : WebsiteMetadata) (db1 : DB),
      getOrCreateWebsiteMetadata url db = .ok (m, db1) →
      getOrCreateWebsiteMetadata url db1 = .ok (m, db1)) ∧
    (∀ (url : String) (db : DB), urlCount url db = 0 →
      ∃ m db1, getOrCreateWebsiteMetadata url db = .ok (m, db1) ∧
        m.url = url ∧ m.title = none ∧ m.description = none ∧
        m.favicon = none ∧ m.image = none ∧ urlCount url db1 = 1) ∧
    (∀ (db : DB) (u1 u2 : Nat) (d1 d2 : CreateBookmarkRequest), db.WF →
      d2.url = d1.url → urlCount d1.url db = 0 →
      urlCount d1.url ((createBookmark u2 d2 ((createBookmark u1 d1 db).2)).2) = 1 ∧
      (∀ b1 b2, (createBookmark u1 d1 db).1 = .ok b1 →
        (createBookmark u2 d2 ((createBookmark u1 d1 db).2)).1 = .ok b2 →
        b1.websiteMetadataId = b2.websiteMetadataId)) := by
  have hidem : ∀ (url : String) (db : DB) (m : WebsiteMetadata) (db1 : DB),
      getOrCreateWebsiteMetadata url db = .ok (m, db1) →
      getOrCreateWebsiteMetadata url db1 = .ok (m, db1) := by
    intro url db m db1 h
    obtain ⟨m2, db2, h2, hshape⟩ := getOrCreateWebsiteMetadata_shape url db
    rw [h] at h2
    injection h2 with h2
    injection h2 with he1 he2
    subst he1
    subst he2
    rcases hshape with rfl | hc
    · exact h
    · obtain ⟨hmeq, hdb1, hfresh⟩ := websiteMetadataCreate_ok hc
      have hmu : m.url = url := by rw [hmeq]
      have hfind : websiteMetadataFindUnique url db1 = some m := by
        unfold websiteMetadataFindUnique
        rw [hdb1]
        dsimp only
        rw [List.find?_append]
        have h0 : db.metadatas.find? (fun x => decide (x.url = url)) = none := by
          rw [List.find?_eq_none]
          intro x hx
          simpa using hfresh x hx
        rw [h0, Option.none_or, ← hmeq]
        exact List.find?_cons_of_pos _ (by simp [hmu])
      unfold getOrCreateWebsiteMetadata
      rw [hfind]
  have hfirst : ∀ (url : String) (db : DB), urlCount url db = 0 →
      ∃ m db1, getOrCreateWebsiteMetadata url db = .ok (m, db1) ∧
        m.url = url ∧ m.title = none ∧ m.description = none ∧
        m.favicon = none ∧ m.image = none ∧ m ∈ db1.metadatas ∧
        urlCount url db1 = 1 := by
    intro url db hcount
    unfold urlCount at hcount
    have hnil := List.length_eq_zero.mp hcount
    have hnone : ∀ x ∈ db.metadatas, ¬ (x.url = url) := by
      intro x hx hxe
      have hmemf : x ∈ db.metadatas.filter (fun m => decide (m.url = url)) :=
        List.mem_filter.mpr ⟨hx, by simp [hxe]⟩
      rw [hnil] at hmemf
      exact absurd hmemf (List.not_mem_nil x)
    have hfindnone : websiteMetadataFindUnique url db = none := by
      unfold websiteMetadataFindUnique
      rw [List.find?_eq_none]
      intro x hx
      simpa using hnone x hx
    have hany : (db.metadatas.any fun x => decide (x.url = url)) = false := by
      rw [List.any_eq_false]
      intro x hx
      simpa using hnone x hx
    refine ⟨⟨db.nextId, url, none, none, none, none⟩,
      { db with metadatas := db.metadatas ++ [⟨db.nextId, url, none, none, none, none⟩],
                nextId := db.nextId + 1 }, ?_, rfl, rfl, rfl, rfl, rfl, by simp, ?_⟩
    · unfold getOrCreateWebsiteMetadata
      rw [hfindnone]
      unfold websiteMetadataCreate
      rw [hany]
      rfl
    · unfold urlCount
      dsimp only
      rw [List.filter_append, hnil]
      simp
  refine ⟨hidem, ?_, ?_⟩
  · intro url db hcount
    obtain ⟨m, db1, h, h1, h2, h3, h4, h5, -, h7⟩ := hfirst url db hcount
    exact ⟨m, db1, h, h1, h2, h3, h4, h5, h7⟩
  · intro db u1 u2 d1 d2 hwf hurl hcount
    obtain ⟨mA, dbA1, hmA, hmetaA, hok1⟩ := createBookmark_meta_facts db u1 d1 hwf
    obtain ⟨m0, db0, h0, hm0url, -, -, -, -, hmemA, hcount0⟩ := hfirst d1.url db hcount
    rw [hmA] at h0
    injection h0 with h0
    injection h0 with he1 he2
    subst he1
    subst he2
    have hwfA : ((createBookmark u1 d1 db).2).WF := createBookmark_WF db u1 d1 hwf
    have hcountA : urlCount d1.url ((createBookmark u1 d1 db).2) = 1 := by
      unfold urlCount at hcount0 ⊢
      rw [hmetaA]
      exact hcount0
    have hmemTop : mA ∈ ((createBookmark u1 d1 db).2).metadatas := by
      rw [hmetaA]
      exact hmemA
    have hfindA : websiteMetadataFindUnique d2.url ((createBookmark u1 d1 db).2) =
        some mA := by
      rw [hurl]
      unfold websiteMetadataFindUnique
      have hsome : (((createBookmark u1 d1 db).2).metadatas.find?
          (fun x => decide (x.url = d1.url))).isSome := by
        rw [List.find?_isSome]
        exact ⟨mA, hmemTop, by simp [hm0url]⟩
      obtain ⟨x, hx⟩ := Option.isSome_iff_exists.mp hsome
      have hxmem := List.mem_of_find?_eq_some hx
      have hxp := List.find?_some hx
      have hxf : x ∈ ((createBookmark u1 d1 db).2).metadatas.filter
          (fun m => decide (m.url = d1.url)) := List.mem_filter.mpr ⟨hxmem, hxp⟩
      have hmf : mA ∈ ((createBookmark u1 d1 db).2).metadatas.filter
          (fun m => decide (m.url = d1.url)) :=
        List.mem_filter.mpr ⟨hmemTop, by simp [hm0url]⟩
      unfold urlCount at hcountA
      obtain ⟨a, ha⟩ := List.length_eq_one.mp hcountA
      rw [ha] at hxf hmf
      have hxa := List.mem_singleton.mp hxf
      have hma := List.mem_singleton.mp hmf
      rw [hx, hxa, hma]
    have hgetA : getOrCreateWebsiteMetadata d2.url ((createBookmark u1 d1 db).2) =
        .ok (mA, (createBookmark u1 d1 db).2) := by
      unfold getOrCreateWebsiteMetadata
      rw [hfindA]
    obtain ⟨mB, dbB1, hmB, hmetaB, hok2⟩ :=
      createBookmark_meta_facts ((createBookmark u1 d1 db).2) u2 d2 hwfA
    rw [hgetA] at hmB
    injection hmB with hmB
    injection hmB with hf1 hf2
    subst hf1
    constructor
    · unfold urlCount at hcountA ⊢
      rw [hmetaB, ← hf2]
      exact hcountA
    · intro b1 b2 hb1 hb2
      rw [hok1 b1 hb1, hok2 b2 hb2]

/-- Witness for C7: on the empty store, user 1 and then user 2 each create a
bookmark of the same URL; exactly one metadata row for that URL results, and
both bookmarks reference the same metadata row. -/
theorem claim7_witness :
    urlCount "https://example.org"
      ((createBookmark 2 { url := "https://example.org" }
        ((createBookmark 1 { url := "https://example.org" } ({} : DB)).2)).2) = 1 ∧
    (∀ b1 b2,
      (createBookmark 1 { url := "https://example.org" } ({} : DB)).1 = .ok b1 →
      (createBookmark 2 { url := "https://example.org" }
        ((createBookmark 1 { url := "https://example.org" } ({} : DB)).2)).1 = .ok b2 →
      b1.websiteMetadataId = b2.websiteMetadataId) :=
  claim7_metadata_dedup.2.2 ({} : DB) 1 2
    { url := "https://example.org" } { url := "https://example.org" }
    (by decide) rfl rfl

/-- Witness for C8: the default query (`page = 1`, `limit = 20`) against
the one-bookmark sample store. -/
theorem claim8_witness :
    (1 : Nat) ≤ (20 : Nat) ∧
    (getBookmarks 1 {} sampleDb1).pagination.totalCount = 1 ∧
    (getBookmarks 1 {} sampleDb1).pagination.totalPages = 1 ∧
    (getBookmarks 1 {} sampleDb1).pagination.hasNext = false ∧
    (getBookmarks 1 {} sampleDb1).pagination.hasPrev = false := by
  have h := claim8_pagination sampleDb1 1 {} (by decide)
  refine ⟨by decide, ?_, ?_, ?_, ?_⟩
  · rw [h.1]
    decide
  · decide
  · rw [h.2.2.2.1]
    decide
  · rw [h.2.2.2.2.1]
    decide

/-- C9, counterexample: renaming category 1 (named "b") of user 1 to "a" —
the name of the user's category 0 — is not "rejected with a duplicate-name
error": `updateCategory` performs no duplicate re-check, so the write runs
into the `(userId, name)` unique index and the raw constraint violation
(Prisma P2002) escapes, which is a different error value than the service's
duplicate-name error `CATEGORY_ALREADY_EXISTS`. -/
theorem claim9_counterexample :
    updateCategory 1 1 { name := some "a" } sampleDbCats =
      (.error (.uniqueViolation "categories"), sampleDbCats) ∧
    ServiceError.uniqueViolation "categories" ≠ categoryDuplicateError := by
  constructor
  · rfl
  · decide

/-- C9, amended: the Tag service re-checks `(userId, name)` uniqueness on
update excluding the row itself — renaming to another row's name is
rejected with the duplicate-name error and the store is unchanged, and
renaming a row to its own current name succeeds; the Category service
performs no such re-check — renaming to another row's name of the same
owner fails only through the database unique-constraint violation (still
leaving the store unchanged, and renaming to its own name still succeeds),
not through a service-level duplicate-name error. -/
theorem claim9_amended (db : DB) (hwf : db.WF) :
    (∀ (u tagId : Nat) (t other : Tag) (n : String),
       t ∈ db.tags → t.id = tagId → t.userId = u →
       other ∈ db.tags → other.userId = u → other.name = n → other.id ≠ tagId →
       n ≠ "" →
       updateTag u tagId { name := some n } db = (.error tagDuplicateError, db)) ∧
    (∀ (u tagId : Nat) (t : Tag),
       t ∈ db.tags → t.id = tagId → t.userId = u →
       ∃ t' db', updateTag u tagId { name := some t.name } db = (.ok t', db')) ∧
    (∀ (c1 c2 : Category),
       c1 ∈ db.categories → c2 ∈ db.categories →
       c1.userId = c2.userId → c1.id ≠ c2.id →
       updateCategory c2.id c2.userId { name := some c1.name } db =
         (.error (.uniqueViolation "categories"), db)) ∧
    (∀ (c : Category),
       c ∈ db.categories →
       ∃ c' db', updateCategory c.id c.userId { name := some c.name } db = (.ok c', db')) := by
  refine ⟨?_, ?_, ?_, ?_⟩
  · -- Tag rename to a name already used by another row of the same owner:
    -- the service-level re-check rejects with the duplicate-name error.
    intro u tagId t other n ht htid htu hother hou hon hoid hn
    have hsome : (db.tags.find? (fun x => decide (x.id = tagId ∧ x.userId = u))).isSome := by
      rw [List.find?_isSome]
      exact ⟨t, ht, by simp [htid, htu]⟩
    obtain ⟨t0, hf⟩ := Option.isSome_iff_exists.mp hsome
    have hdup : (db.tags.any fun x => decide (x.userId = u ∧ x.name = n ∧ x.id ≠ tagId)) = true := by
      rw [List.any_eq_true]
      exact ⟨other, hother, by simp [hou, hon, hoid]⟩
    have hne : (decide (n = "") : Bool) = false := by simp [hn]
    unfold updateTag
    rw [hf]
    simp only [hne, hdup]
    rfl
  · -- Tag rename to its own current name passes the re-check and succeeds.
    intro u tagId t ht htid htu
    have hsome : (db.tags.find? (fun x => decide (x.id = tagId ∧ x.userId = u))).isSome := by
      rw [List.find?_isSome]
      exact ⟨t, ht, by simp [htid, htu]⟩
    obtain ⟨t0, hf⟩ := Option.isSome_iff_exists.mp hsome
    have hnodup : (db.tags.any fun x =>
        decide (x.userId = u ∧ x.name = t.name ∧ x.id ≠ tagId)) = false := by
      rw [List.any_eq_false]
      intro x hx hc
      rw [decide_eq_true_iff] at hc
      refine hc.2.2 ?_
      rw [hwf.tag_key_unique hx ht (hc.1.trans htu.symm) hc.2.1]
      exact htid
    have hsome2 : (db.tags.find? (fun x => decide (x.id = tagId))).isSome := by
      rw [List.find?_isSome]
      exact ⟨t, ht, by simp [htid]⟩
    obtain ⟨t1, hf2⟩ := Option.isSome_iff_exists.mp hsome2
    have ht1 : t1 = t := by
      have hm := List.mem_of_find?_eq_some hf2
      have hp := List.find?_some hf2
      rw [decide_eq_true_iff] at hp
      exact hwf.tag_id_unique hm ht (hp.trans htid.symm)
    subst ht1
    have hnodup2 : (db.tags.any fun o =>
        decide (o.id ≠ tagId ∧ o.userId = t1.userId ∧ o.name = t1.name)) = false := by
      rw [List.any_eq_false]
      intro x hx hc
      rw [decide_eq_true_iff] at hc
      refine hc.1 ?_
      rw [hwf.tag_key_unique hx ht hc.2.1 hc.2.2]
      exact htid
    refine ⟨t1, { db with tags := db.tags.map (fun o => if o.id = tagId then t1 else o) }, ?_⟩
    unfold updateTag tagUpdateRow
    rw [hf, hf2]
    simp only [Option.getD_some, hnodup, Bool.and_false, hnodup2]
    rfl
  · -- Category rename to another row's name of the same owner: no service
    -- re-check exists, the write hits the unique index.
    intro c1 c2 hc1 hc2 hu hid
    have hsome : (db.categories.find? (fun x =>
        decide (x.id = c2.id ∧ x.userId = c2.userId))).isSome := by
      rw [List.find?_isSome]
      exact ⟨c2, hc2, by simp⟩
    obtain ⟨c0, hf⟩ := Option.isSome_iff_exists.mp hsome
    have hsome2 : (db.categories.find? (fun x => decide (x.id = c2.id))).isSome := by
      rw [List.find?_isSome]
      exact ⟨c2, hc2, by simp⟩
    obtain ⟨c3, hf2⟩ := Option.isSome_iff_exists.mp hsome2
    have hc3 : c3 = c2 := by
      have hm := List.mem_of_find?_eq_some hf2
      have hp := List.find?_some hf2
      rw [decide_eq_true_iff] at hp
      exact hwf.category_id_unique hm hc2 hp
    rw [hc3] at hf2
    have hhit : (db.categories.any fun o =>
        decide (o.id ≠ c2.id ∧ o.userId = c2.userId ∧ o.name = c1.name)) = true := by
      rw [List.any_eq_true]
      refine ⟨c1, hc1, ?_⟩
      rw [decide_eq_true_iff]
      exact ⟨fun h => hid h, hu, rfl⟩
    unfold updateCategory categoryUpdateRow
    rw [hf, hf2]
    simp only [Option.getD_some, updField, hhit]
    rfl
  · -- Category rename to its own current name succeeds.
    intro c hc
    have hsome : (db.categories.find? (fun x =>
        decide (x.id = c.id ∧ x.userId = c.userId))).isSome := by
      rw [List.find?_isSome]
      exact ⟨c, hc, by simp⟩
    obtain ⟨c0, hf⟩ := Option.isSome_iff_exists.mp hsome
    have hsome2 : (db.categories.find? (fun x => decide (x.id = c.id))).isSome := by
      rw [List.find?_isSome]
      exact ⟨c, hc, by simp⟩
    obtain ⟨c3, hf2⟩ := Option.isSome_iff_exists.mp hsome2
    have hc3 : c3 = c := by
      have hm := List.mem_of_find?_eq_some hf2
      have hp := List.find?_some hf2
      rw [decide_eq_true_iff] at hp
      exact hwf.category_id_unique hm hc hp
    rw [hc3] at hf2
    have hmiss : (db.categories.any fun o =>
        decide (o.id ≠ c.id ∧ o.userId = c.userId ∧ o.name = c.name)) = false := by
      rw [List.any_eq_false]
      intro x hx hcx
      rw [decide_eq_true_iff] at hcx
      exact hcx.1 (congrArg Category.id (hwf.category_key_unique hx hc hcx.2.1 hcx.2.2))
    refine ⟨c, { db with categories := db.categories.map (fun o => if o.id = c.id then c else o) }, ?_⟩
    unfold updateCategory categoryUpdateRow
    rw [hf, hf2]
    simp only [Option.getD_some, updField, hmiss]
    rfl

/-- Witness for C9's amended statement at concrete stores: user 1 owns tags
`a` (id 0) and `b` (id 1) and categories `a` (id 0) and `b` (id 1). -/
theorem claim9_witness :
    updateTag 1 1 { name := some "a" } sampleDbTags = (.error tagDuplicateError, sampleDbTags) ∧
    (∃ t' db', updateTag 1 0 { name := some "a" } sampleDbTags = (.ok t', db')) ∧
    updateCategory 1 1 { name := some "a" } sampleDbCats =
      (.error (.uniqueViolation "categories"), sampleDbCats) ∧
    (∃ c' db', updateCategory 0 1 { name := some "a" } sampleDbCats = (.ok c', db')) := by
  obtain ⟨h1, h2, _, _⟩ := claim9_amended sampleDbTags (by decide)
  obtain ⟨_, _, h3, h4⟩ := claim9_amended sampleDbCats (by decide)
  refine ⟨?_, ?_, ?_, ?_⟩
  · exact h1 1 1 ⟨1, "b", 1⟩ ⟨0, "a", 1⟩ "a" (by decide) rfl rfl (by decide) rfl rfl
      (by decide) (by decide)
  · exact h2 1 0 ⟨0, "a", 1⟩ (by decide) rfl rfl
  · exact h3 ⟨0, "a", none, none, 1⟩ ⟨1, "b", none, none, 1⟩ (by decide) (by decide) rfl
      (by decide)
  · exact h4 ⟨0, "a", none, none, 1⟩ (by decide)

/-! ## Lemmas about the upsert loop of `addTagsToBookmark` -/

theorem bookmarkTagUpsert_mem (bid i : Nat) (db : DB) (bt : BookmarkTag) :
    bt ∈ (bookmarkTagUpsert bid i db).bookmarkTags ↔
      bt ∈ db.bookmarkTags ∨ bt = ⟨bid, i⟩ := by
  unfold bookmarkTagUpsert
  split
  · next hany =>
    rw [List.any_eq_true] at hany
    obtain ⟨x, hx, hpx⟩ := hany
    rw [decide_eq_true_iff] at hpx
    have hxe : x = ⟨bid, i⟩ := by
      cases x
      simp only [BookmarkTag.mk.injEq]
      exact hpx
    constructor
    · exact Or.inl
    · rintro (h | rfl)
      · exact h
      · exact hxe ▸ hx
  · simp

theorem bookmarkTagUpsert_pairwise (bid i : Nat) (db : DB)
    (h : db.bookmarkTags.Pairwise (fun a b => ¬ (a.bookmarkId = b.bookmarkId ∧ a.tagId = b.tagId))) :
    (bookmarkTagUpsert bid i db).bookmarkTags.Pairwise
      (fun a b => ¬ (a.bookmarkId = b.bookmarkId ∧ a.tagId = b.tagId)) := by
  unfold bookmarkTagUpsert
  split
  · exact h
  · next hany =>
    rw [Bool.not_eq_true, List.any_eq_false] at hany
    rw [List.pairwise_append]
    refine ⟨h, by simp, ?_⟩
    intro x hx y hy hc
    have hy' : y = ⟨bid, i⟩ := by simpa using hy
    refine absurd (hany x hx) ?_
    rw [hy'] at hc
    simp [hc.1, hc.2]

theorem bookmarkTagUpsert_fields (bid i : Nat) (db : DB) :
    (bookmarkTagUpsert bid i db).metadatas = db.metadatas ∧
    (bookmarkTagUpsert bid i db).bookmarks = db.bookmarks ∧
    (bookmarkTagUpsert bid i db).categories = db.categories ∧
    (bookmarkTagUpsert bid i db).tags = db.tags ∧
    (bookmarkTagUpsert bid i db).nextId = db.nextId ∧
    (bookmarkTagUpsert bid i db).now = db.now := by
  unfold bookmarkTagUpsert
  split <;> simp

theorem upsertTagsLoop_mem (bid : Nat) :
    ∀ (ids : List Nat) (db : DB) (bt : BookmarkTag),
      bt ∈ (upsertTagsLoop bid ids db).bookmarkTags ↔
        bt ∈ db.bookmarkTags ∨ (bt.bookmarkId = bid ∧ bt.tagId ∈ ids)
  | [], db, bt => by simp [upsertTagsLoop]
  | i :: rest, db, bt => by
    rw [show upsertTagsLoop bid (i :: rest) db =
          upsertTagsLoop bid rest (bookmarkTagUpsert bid i db) from rfl,
        upsertTagsLoop_mem bid rest _ bt, bookmarkTagUpsert_mem]
    cases bt
    simp only [BookmarkTag.mk.injEq, List.mem_cons]
    tauto

theorem upsertTagsLoop_pairwise (bid : Nat) :
    ∀ (ids : List Nat) (db : DB),
      db.bookmarkTags.Pairwise (fun a b => ¬ (a.bookmarkId = b.bookmarkId ∧ a.tagId = b.tagId)) →
      (upsertTagsLoop bid ids db).bookmarkTags.Pairwise
        (fun a b => ¬ (a.bookmarkId = b.bookmarkId ∧ a.tagId = b.tagId))
  | [], db, h => h
  | i :: rest, db, h =>
    upsertTagsLoop_pairwise bid rest _ (bookmarkTagUpsert_pairwise bid i db h)

/-! ## Counting lemmas for the tag-ownership check of `addTagsToBookmark` -/

/-- The ids of any selection of rows of a well-formed tag table are distinct. -/
theorem nodup_map_id_filter {db : DB} (hwf : db.WF) (p : Tag → Bool) :
    ((db.tags.filter p).map (·.id)).Nodup := by
  have h1 : (db.tags.filter p).Pairwise (fun a b => a.id ≠ b.id) :=
    (List.Pairwise.sublist (List.filter_sublist db.tags) hwf.2.1).imp (fun h => h.1)
  exact h1.map _ (fun a b h => h)

/-- A list with a repeated entry has strictly more entries than distinct
values. -/
theorem dedup_length_lt_of_not_nodup {l : List Nat} (h : ¬ l.Nodup) :
    l.dedup.length < l.length := by
  rcases Nat.lt_or_ge l.dedup.length l.length with hlt | hge
  · exact hlt
  · exfalso
    have hle := (List.dedup_sublist l).length_le
    have heq := (List.dedup_sublist l).eq_of_length (Nat.le_antisymm hle hge)
    exact h (heq ▸ List.nodup_dedup l)

/-- A duplicate-free list included in `l` has at most as many entries as
`l` has distinct values. -/
theorem nodup_length_le_dedup {l1 l2 : List Nat} (h1 : l1.Nodup)
    (hsub : ∀ x ∈ l1, x ∈ l2) : l1.length ≤ l2.dedup.length := by
  have hc1 : l1.toFinset.card = l1.length := List.toFinset_card_of_nodup h1
  have hc2 : l2.toFinset.card = l2.dedup.length := rfl
  rw [← hc1, ← hc2]
  refine Finset.card_le_card ?_
  intro x hx
  rw [List.mem_toFinset] at hx ⊢
  exact hsub x hx

/-- Two duplicate-free lists that contain each other's entries have the same
length. -/
theorem nodup_length_eq_of_mutual {l1 l2 : List Nat} (h1 : l1.Nodup) (h2 : l2.Nodup)
    (s12 : ∀ x ∈ l1, x ∈ l2) (s21 : ∀ x ∈ l2, x ∈ l1) : l1.length = l2.length := by
  have hc1 : l1.toFinset.card = l1.length := List.toFinset_card_of_nodup h1
  have hc2 : l2.toFinset.card = l2.length := List.toFinset_card_of_nodup h2
  rw [← hc1, ← hc2]
  refine congrArg Finset.card (Finset.Subset.antisymm ?_ ?_) <;>
    · intro x hx
      rw [List.mem_toFinset] at hx ⊢
      first
        | exact s12 x hx
        | exact s21 x hx

/-- C10: on a live bookmark owned by the requester, `addTagsToBookmark`
rejects any `tagIds` list containing a repeated id with the `INVALID_TAGS`
error and inserts no junction row — the count of owned rows found is
compared against the raw length of the list, so a repeat can never reach
the insert loop, even when every id is an owned tag; with distinct ids all
owned by the requester the call succeeds, the junction table afterwards
holds exactly the old rows plus one row per requested pair, and attaching
an already-attached tag inserts no duplicate junction row (the pairwise
distinctness of junction rows is preserved). -/
theorem claim10_addTags_duplicates (db : DB) (u bid : Nat) (tagIds : List Nat)
    (hwf : db.WF)
    (hbk : ∃ b ∈ db.bookmarks, b.id = bid ∧ b.userId = u ∧ b.deletedAt = none) :
    (¬ tagIds.Nodup →
      addTagsToBookmark u bid tagIds db = (.error invalidTagsError, db)) ∧
    (tagIds.Nodup → (∀ i ∈ tagIds, ∃ t ∈ db.tags, t.id = i ∧ t.userId = u) →
      (addTagsToBookmark u bid tagIds db).1 = .ok () ∧
      (∀ bt, bt ∈ (addTagsToBookmark u bid tagIds db).2.bookmarkTags ↔
        bt ∈ db.bookmarkTags ∨ (bt.bookmarkId = bid ∧ bt.tagId ∈ tagIds)) ∧
      (addTagsToBookmark u bid tagIds db).2.bookmarkTags.Pairwise
        (fun a b => ¬ (a.bookmarkId = b.bookmarkId ∧ a.tagId = b.tagId))) := by
  obtain ⟨b, hb, hbid, hbu, hbdel⟩ := hbk
  have hsome : (bookmarkFindFirst u bid db).isSome := by
    rw [bookmarkFindFirst, List.find?_isSome]
    exact ⟨b, hb, by simp [hbid, hbu, hbdel]⟩
  obtain ⟨b0, hfb⟩ := Option.isSome_iff_exists.mp hsome
  have hids : ((db.tags.filter
      (fun t => decide (t.id ∈ tagIds ∧ t.userId = u))).map (·.id)).Nodup :=
    nodup_map_id_filter hwf _
  have hmem : ∀ x ∈ (db.tags.filter
      (fun t => decide (t.id ∈ tagIds ∧ t.userId = u))).map (·.id), x ∈ tagIds := by
    intro x hx
    rw [List.mem_map] at hx
    obtain ⟨t, ht, rfl⟩ := hx
    have := List.of_mem_filter ht
    rw [decide_eq_true_iff] at this
    exact this.1
  constructor
  · -- A repeated id makes the ownership count come up short.
    intro hdup
    have hlt : (db.tags.filter
        (fun t => decide (t.id ∈ tagIds ∧ t.userId = u))).length < tagIds.length := by
      calc (db.tags.filter (fun t => decide (t.id ∈ tagIds ∧ t.userId = u))).length
          = ((db.tags.filter (fun t => decide (t.id ∈ tagIds ∧ t.userId = u))).map
              (·.id)).length := (List.length_map _ _).symm
        _ ≤ tagIds.dedup.length := nodup_length_le_dedup hids hmem
        _ < tagIds.length := dedup_length_lt_of_not_nodup hdup
    unfold addTagsToBookmark
    rw [hfb, if_pos (Nat.ne_of_lt hlt)]
  · -- Distinct owned ids: the count matches and the upsert loop runs.
    intro hnd howned
    have hsub : ∀ i ∈ tagIds, i ∈ (db.tags.filter
        (fun t => decide (t.id ∈ tagIds ∧ t.userId = u))).map (·.id) := by
      intro i hi
      obtain ⟨t, ht, hti, htu⟩ := howned i hi
      rw [List.mem_map]
      refine ⟨t, List.mem_filter.mpr ⟨ht, ?_⟩, hti⟩
      rw [decide_eq_true_iff]
      exact ⟨hti ▸ hi, htu⟩
    have hlen : (db.tags.filter
        (fun t => decide (t.id ∈ tagIds ∧ t.userId = u))).length = tagIds.length := by
      rw [← List.length_map _ (Tag.id)]
      exact nodup_length_eq_of_mutual hids hnd hmem hsub
    have heq : addTagsToBookmark u bid tagIds db = (.ok (), upsertTagsLoop bid tagIds db) := by
      unfold addTagsToBookmark
      rw [hfb, if_neg (fun hne => hne hlen)]
    rw [heq]
    exact ⟨rfl, fun bt => upsertTagsLoop_mem bid tagIds db bt,
      upsertTagsLoop_pairwise bid tagIds db hwf.2.2.2.2.1⟩

/-- Witness for C10: bookmark 10 of user 1; `[7, 7]` repeats the owned tag 7
and is rejected; `[7]` succeeds. -/
theorem claim10_witness :
    addTagsToBookmark 1 10 [7, 7] sampleDb2 = (.error invalidTagsError, sampleDb2) ∧
    (addTagsToBookmark 1 10 [7] sampleDb2).1 = .ok () := by
  have h := claim10_addTags_duplicates sampleDb2 1 10 [7, 7] (by decide)
    ⟨{ id := 10, personalTitle := none, personalNote := none, isPublic := false,
       userId := 1, websiteMetadataId := 5, categoryId := none, createdAt := 0,
       deletedAt := none }, by decide, rfl, rfl, rfl⟩
  have h2 := claim10_addTags_duplicates sampleDb2 1 10 [7] (by decide)
    ⟨{ id := 10, personalTitle := none, personalNote := none, isPublic := false,
       userId := 1, websiteMetadataId := 5, categoryId := none, createdAt := 0,
       deletedAt := none }, by decide, rfl, rfl, rfl⟩
  refine ⟨h.1 (by decide), (h2.2 (by decide) ?_).1⟩
  intro i hi
  have hi7 : i = 7 := by simpa using hi
  subst hi7
  exact ⟨⟨7, "dev", 1⟩, by decide, rfl, rfl⟩

end BookmarkApi
